import Mathlib

/-!
Verification development for the pdf-to-excel-converter repository.

The Python sources are shallowly embedded as executable Lean definitions:
  * `clean_column_names` embeds `PDFExtractor._clean_column_names`
    (src/core/extractor.py, lines 251-308);
  * `is_text_based_run` embeds `PDFExtractor.is_text_based`
    (src/core/extractor.py, lines 54-73), with a per-page result type whose
    `err` constructor stands for an exception raised by the PDF library;
  * the `DF`-based pipeline (`extract_text_tables`, `extract_from_images`,
    `extract_all_text_comprehensive`, `extract_remaining_content`,
    `extract_page_content`, `consolidate_tables`, `extract`) embeds the
    corresponding methods of `PDFExtractor` (src/core/extractor.py), with a
    pandas DataFrame modelled as an ordered association list from column
    names to column value lists;
  * `organize_syllabus_structure` and `reconstruct_words_to_sentences` embed
    the functions of the same names in src/pdf_to_excel_app.py.

Python strings are modelled as Lean `String`/`List Char`; Python string
methods (`strip`, `split`, `join`, `replace`) are given as explicit list
functions below.  Machine floats appear in the source only in the
completeness-score division and in the mean-length gate of
`reconstruct_words_to_sentences`; both are modelled with exact rational /
integer arithmetic (the concrete values used in theorems are exactly
representable, so the float and rational semantics agree there).
-/

namespace PdfToExcel

/-- Decimal digit character: `digitCh d` is the character for digit `d`. -/
def digitCh (d : Nat) : Char := Char.ofNat (48 + d)

/-- Little-endian base-10 digits with explicit fuel (structural recursion,
so that it evaluates inside the kernel). -/
def natDigitsAux : Nat → Nat → List Nat
  | _, 0 => []
  | 0, _ + 1 => []
  | fuel + 1, n + 1 => ((n + 1) % 10) :: natDigitsAux fuel ((n + 1) / 10)

/-- Decimal rendering of a natural number, as produced by Python `str(n)`
and f-string interpolation of an `int`. -/
def natRepr (n : Nat) : String :=
  if n = 0 then "0" else String.mk (((natDigitsAux n n).map digitCh).reverse)

lemma natDigitsAux_eq_digits :
    ∀ fuel n, n ≤ fuel → natDigitsAux fuel n = Nat.digits 10 n := by
  intro fuel
  induction fuel with
  | zero =>
    intro n hn
    have : n = 0 := by omega
    simp [this, natDigitsAux]
  | succ f ih =>
    intro n hn
    cases n with
    | zero => simp [natDigitsAux]
    | succ m =>
      rw [natDigitsAux]
      have hd := @Nat.digits_def' 10 (by norm_num) (m + 1) (Nat.succ_pos m)
      rw [hd]
      congr 1
      exact ih ((m + 1) / 10) (by omega)

/-- Whitespace test mirroring Python `str.strip` / `str.split` defaults on
the character set that occurs in this program. -/
def isWs (c : Char) : Bool := c == ' ' || c == '\t' || c == '\n' || c == '\r'

/-- Python `s.strip()` on a character list. -/
def pyStrip (l : List Char) : List Char :=
  ((l.dropWhile isWs).reverse.dropWhile isWs).reverse

/-- Worker for Python `s.split()`: `acc` is the reversed current token. -/
def pySplitWsAux : List Char → List Char → List (List Char)
  | [], acc => if acc = [] then [] else [acc.reverse]
  | c :: rest, acc =>
    if isWs c then
      if acc = [] then pySplitWsAux rest []
      else acc.reverse :: pySplitWsAux rest []
    else pySplitWsAux rest (c :: acc)

/-- Python `s.split()` (split on whitespace runs, dropping empty pieces). -/
def pySplitWs (l : List Char) : List (List Char) := pySplitWsAux l []

/-- Python `' '.join(ts)` on character lists. -/
def pyJoinSp : List (List Char) → List Char
  | [] => []
  | [t] => t
  | t :: ts => t ++ ' ' :: pyJoinSp ts

/-- Python `s.replace(a, b)` for single characters `a`, `b`. -/
def pyReplace (l : List Char) (a b : Char) : List Char :=
  l.map (fun c => if c = a then b else c)

/-- The characters `PDFExtractor._clean_column_names` replaces with `_`. -/
def invalidChars : List Char := ['\\', '/', '*', '?', ':', '[', ']']

/-- `' '.join(header.split())` — collapse whitespace runs. -/
def collapse_ws (l : List Char) : List Char := pyJoinSp (pySplitWs l)

/-- Body of the non-blank branch of `_clean_column_names`
(src/core/extractor.py lines 274-285): newlines replaced by spaces,
whitespace collapsed, Excel-invalid characters replaced by `_`, and
labels longer than 50 characters truncated to the first 47 plus `...`. -/
def clean_core (h1 : List Char) : List Char :=
  let h2 := pyReplace (pyReplace h1 '\n' ' ') '\r' ' '
  let h3 := collapse_ws h2
  let h4 := invalidChars.foldl (fun s ch => pyReplace s ch '_') h3
  if h4.length > 50 then h4.take 47 ++ ['.', '.', '.'] else h4

/-- The per-cell cleaning of `PDFExtractor._clean_column_names`
(src/core/extractor.py lines 264-285), before duplicate handling:
`None`/blank cells become `Column_{i+1}`; otherwise the cell is stripped
and processed by `clean_core`. -/
def clean_cell (i : Nat) (header : Option String) : String :=
  match header with
  | none => "Column_" ++ natRepr (i + 1)
  | some h0 =>
    let h1 := pyStrip h0.data
    if h1 = [] then "Column_" ++ natRepr (i + 1)
    else String.mk (clean_core h1)

/-- Candidate label in the duplicate-handling loop: `f"{original}_{counter}"`. -/
def uCand (orig : String) (n : Nat) : String := orig ++ "_" ++ natRepr n

/-- The `while header in seen_headers` loop of `_clean_column_names`,
run with explicit fuel (the loop always terminates because the candidate
labels are pairwise distinct and `seen` is finite). -/
def uniquifyAux (seen : List String) (orig : String) : Nat → Nat → String
  | n, 0 => uCand orig n
  | n, fuel + 1 =>
    if uCand orig n ∈ seen then uniquifyAux seen orig (n + 1) fuel
    else uCand orig n

/-- Duplicate handling of `_clean_column_names` (lines 287-293): keep the
label if unseen, otherwise append `_{n}` for the first free `n ≥ 1`. -/
def uniquify (seen : List String) (h : String) : String :=
  if h ∈ seen then uniquifyAux seen h 1 (seen.length + 1) else h

/-- Main loop of `_clean_column_names`: left to right, clean each cell,
uniquify against the labels already emitted, and record it as seen. -/
def clean_go : Nat → List (Option String) → List String → List String
  | _, [], _ => []
  | i, c :: rest, seen =>
    let lbl := uniquify seen (clean_cell i c)
    lbl :: clean_go (i + 1) rest (lbl :: seen)

/-- `PDFExtractor._clean_column_names` (src/core/extractor.py 251-308).
The `except` fallback of the Python loop is unreachable in this model
because the loop body is total. -/
def clean_column_names (headers : List (Option String)) : List String :=
  clean_go 0 headers []

/-! ### Injectivity of the decimal rendering -/

lemma digitCh_inj_lt10 : ∀ d < 10, ∀ e < 10, digitCh d = digitCh e → d = e := by
  decide

lemma map_digitCh_inj : ∀ l1 l2 : List Nat, (∀ x ∈ l1, x < 10) →
    (∀ x ∈ l2, x < 10) → l1.map digitCh = l2.map digitCh → l1 = l2 := by
  intro l1
  induction l1 with
  | nil => intro l2 _ _ h; cases l2 <;> simp_all
  | cons a t ih =>
    intro l2 h1 h2 h
    cases l2 with
    | nil => simp_all
    | cons b t2 =>
      simp only [List.map_cons, List.cons.injEq] at h
      have ha : a = b := digitCh_inj_lt10 a (h1 a (by simp)) b (h2 b (by simp)) h.1
      have ht : t = t2 := ih t2 (fun x hx => h1 x (by simp [hx]))
        (fun x hx => h2 x (by simp [hx])) h.2
      simp [ha, ht]

lemma natRepr_eq (n : Nat) :
    natRepr n = if n = 0 then "0"
      else String.mk (((Nat.digits 10 n).map digitCh).reverse) := by
  unfold natRepr
  rw [natDigitsAux_eq_digits n n le_rfl]

lemma natRepr_inj : Function.Injective natRepr := by
  intro a b h
  rw [natRepr_eq, natRepr_eq] at h
  by_cases ha : a = 0 <;> by_cases hb : b = 0 <;> simp [ha, hb] at h ⊢
  · -- a = 0, b ≠ 0 : "0" = rendered b
    exfalso
    have hdata : ("0" : String).data = ((Nat.digits 10 b).map digitCh).reverse := by
      rw [h]
    have : ['0'] = ((Nat.digits 10 b).map digitCh).reverse := hdata
    have h2 : (Nat.digits 10 b).map digitCh = ['0'] := by
      have := congrArg List.reverse this
      simpa using this.symm
    have h3 : Nat.digits 10 b = [0] := by
      have : (Nat.digits 10 b).map digitCh = [0].map digitCh := by
        simpa [digitCh] using h2
      exact map_digitCh_inj _ _ (fun x hx => Nat.digits_lt_base (by norm_num) hx)
        (by simp) this
    have := Nat.ofDigits_digits 10 b
    rw [h3] at this
    simp [Nat.ofDigits] at this
    omega
  · -- a ≠ 0, b = 0
    exfalso
    have hdata : ((Nat.digits 10 a).map digitCh).reverse = ("0" : String).data := by
      rw [← h]
    have h2 : (Nat.digits 10 a).map digitCh = ['0'] := by
      have := congrArg List.reverse hdata
      simpa using this
    have h3 : Nat.digits 10 a = [0] := by
      have : (Nat.digits 10 a).map digitCh = [0].map digitCh := by
        simpa [digitCh] using h2
      exact map_digitCh_inj _ _ (fun x hx => Nat.digits_lt_base (by norm_num) hx)
        (by simp) this
    have := Nat.ofDigits_digits 10 a
    rw [h3] at this
    simp [Nat.ofDigits] at this
    omega
  · -- both nonzero
    have hdata := congrArg String.data h
    simp only [] at hdata
    have h2 := congrArg List.reverse hdata
    simp only [List.reverse_reverse] at h2
    have h3 : Nat.digits 10 a = Nat.digits 10 b :=
      map_digitCh_inj _ _ (fun x hx => Nat.digits_lt_base (by norm_num) hx)
        (fun x hx => Nat.digits_lt_base (by norm_num) hx) h2
    exact Nat.digits_inj_iff.mp h3

lemma string_append_left_cancel {s t u : String} (h : s ++ t = s ++ u) : t = u := by
  have hd := congrArg String.data h
  have hdt : (s ++ t).data = s.data ++ t.data := rfl
  have hdu : (s ++ u).data = s.data ++ u.data := rfl
  rw [hdt, hdu] at hd
  have h2 := List.append_cancel_left hd
  cases t; cases u; exact congrArg String.mk h2

lemma uCand_inj (orig : String) : Function.Injective (uCand orig) := by
  intro m n h
  unfold uCand at h
  have h2 : orig ++ ("_" ++ natRepr m) = orig ++ ("_" ++ natRepr n) := by
    simpa [String.append_assoc] using h
  have h3 := string_append_left_cancel h2
  have h4 := string_append_left_cancel h3
  exact natRepr_inj h4

/-! ### The duplicate-handling loop never returns a seen label -/

lemma uniquifyAux_not_mem (seen : List String) (orig : String) :
    ∀ fuel n, (∃ k, n ≤ k ∧ k < n + fuel ∧ uCand orig k ∉ seen) →
      uniquifyAux seen orig n fuel ∉ seen := by
  intro fuel
  induction fuel with
  | zero =>
    intro n h
    obtain ⟨k, h1, h2, _⟩ := h
    omega
  | succ f ih =>
    intro n h
    obtain ⟨k, hk1, hk2, hk3⟩ := h
    unfold uniquifyAux
    by_cases hmem : uCand orig n ∈ seen
    · rw [if_pos hmem]
      apply ih
      refine ⟨k, ?_, by omega, hk3⟩
      rcases Nat.eq_or_lt_of_le hk1 with h | h
      · exact absurd (h ▸ hk3) (fun hc => hc hmem)
      · omega
    · rw [if_neg hmem]
      exact hmem

lemma exists_free_candidate (seen : List String) (orig : String) :
    ∃ k, 1 ≤ k ∧ k < 1 + (seen.length + 1) ∧ uCand orig k ∉ seen := by
  by_contra hall
  push_neg at hall
  set l := (List.range' 1 (seen.length + 1)).map (uCand orig) with hl
  have hnd : l.Nodup := (List.nodup_range' 1 (seen.length + 1)).map (uCand_inj orig)
  have hsub : ∀ x ∈ l, x ∈ seen := by
    intro x hx
    rw [hl] at hx
    obtain ⟨k, hk, rfl⟩ := List.mem_map.mp hx
    have := List.mem_range'_1.mp hk
    exact hall k this.1 (by omega)
  have hcard1 : l.toFinset.card = l.length := List.toFinset_card_of_nodup hnd
  have hcard2 : l.toFinset ⊆ seen.toFinset := by
    intro x hx
    exact List.mem_toFinset.mpr (hsub x (List.mem_toFinset.mp hx))
  have hcard3 : seen.toFinset.card ≤ seen.length := seen.toFinset_card_le
  have hlen : l.length = seen.length + 1 := by simp [hl]
  have := Finset.card_le_card hcard2
  omega

lemma uniquify_not_mem (seen : List String) (h : String) : uniquify seen h ∉ seen := by
  unfold uniquify
  by_cases hm : h ∈ seen
  · rw [if_pos hm]
    exact uniquifyAux_not_mem seen h (seen.length + 1) 1 (exists_free_candidate seen h)
  · rw [if_neg hm]
    exact hm

lemma uniquifyAux_shape (seen : List String) (orig : String) :
    ∀ fuel n, ∃ k, uniquifyAux seen orig n fuel = uCand orig k := by
  intro fuel
  induction fuel with
  | zero => intro n; exact ⟨n, rfl⟩
  | succ f ih =>
    intro n
    unfold uniquifyAux
    by_cases hmem : uCand orig n ∈ seen
    · rw [if_pos hmem]; exact ih (n + 1)
    · rw [if_neg hmem]; exact ⟨n, rfl⟩

lemma string_append_empty (s : String) : s ++ "" = s := by
  cases s
  exact congrArg String.mk (List.append_nil _)

lemma uniquify_shape (seen : List String) (h : String) :
    ∃ t, uniquify seen h = h ++ t := by
  unfold uniquify
  by_cases hm : h ∈ seen
  · rw [if_pos hm]
    obtain ⟨k, hk⟩ := uniquifyAux_shape seen h (seen.length + 1) 1
    exact ⟨"_" ++ natRepr k, by rw [hk]; simp [uCand, String.append_assoc]⟩
  · rw [if_neg hm]
    exact ⟨"", (string_append_empty h).symm⟩

/-! ### Uniqueness and positional shape of the sanitized header row -/

lemma clean_go_nodup : ∀ (cs : List (Option String)) (i : Nat) (seen : List String),
    (clean_go i cs seen).Nodup ∧ ∀ l ∈ clean_go i cs seen, l ∉ seen := by
  intro cs
  induction cs with
  | nil => intro i seen; simp [clean_go]
  | cons c rest ih =>
    intro i seen
    simp only [clean_go]
    obtain ⟨ihnd, ihmem⟩ := ih (i + 1) (uniquify seen (clean_cell i c) :: seen)
    constructor
    · refine List.nodup_cons.mpr ⟨?_, ihnd⟩
      intro hc
      exact ihmem _ hc (by simp)
    · intro l hl
      rcases List.mem_cons.mp hl with rfl | hl2
      · exact uniquify_not_mem seen (clean_cell i c)
      · intro hc
        exact ihmem l hl2 (by simp [hc])

lemma clean_go_length : ∀ (cs : List (Option String)) (i : Nat) (seen : List String),
    (clean_go i cs seen).length = cs.length := by
  intro cs
  induction cs with
  | nil => intro i seen; simp [clean_go]
  | cons c rest ih => intro i seen; simp [clean_go, ih]

lemma clean_go_getD : ∀ (cs : List (Option String)) (i : Nat) (seen : List String)
    (j : Nat), j < cs.length →
    ∃ t, (clean_go i cs seen).getD j "" = clean_cell (i + j) (cs.getD j none) ++ t := by
  intro cs
  induction cs with
  | nil => intro i seen j hj; simp at hj
  | cons c rest ih =>
    intro i seen j hj
    cases j with
    | zero =>
      simp only [clean_go, List.getD_cons_zero, Nat.add_zero]
      exact uniquify_shape seen (clean_cell i c)
    | succ j2 =>
      simp only [clean_go, List.getD_cons_succ]
      have hj2 : j2 < rest.length := by simp at hj; omega
      obtain ⟨t, ht⟩ := ih (i + 1) _ j2 hj2
      refine ⟨t, ?_⟩
      rw [ht]
      congr 2
      omega

/-- Claim C4: for every input list of raw header cells (including `None` and
blank cells), `_clean_column_names` returns a list in which no two labels
are equal. -/
theorem C4_sanitized_headers_nodup (headers : List (Option String)) :
    (clean_column_names headers).Nodup :=
  (clean_go_nodup headers 0 []).1

/-- Claim C10 (implicit): the header sanitizer returns a list of exactly the
same length as its input, and the label at each position is derived from the
cell at that same position (it extends the per-cell cleaning of that cell by
at most a uniquification suffix). -/
theorem C10_sanitizer_positional (headers : List (Option String)) :
    (clean_column_names headers).length = headers.length ∧
    ∀ j, j < headers.length →
      ∃ t, (clean_column_names headers).getD j "" =
        clean_cell j (headers.getD j none) ++ t := by
  constructor
  · exact clean_go_length headers 0 []
  · intro j hj
    have := clean_go_getD headers 0 [] j hj
    simpa using this

/-- Witness for C10 at the concrete header row `[None, "Name", "Name"]`. -/
theorem C10_sanitizer_positional_witness :
    (clean_column_names [none, some "Name", some "Name"]).length = 3 ∧
    ∃ t, (clean_column_names [none, some "Name", some "Name"]).getD 2 "" =
      clean_cell 2 (some "Name") ++ t := by
  refine ⟨(C10_sanitizer_positional [none, some "Name", some "Name"]).1, ?_⟩
  exact (C10_sanitizer_positional [none, some "Name", some "Name"]).2 2 (by decide)

/-- Claim C5 fails on the code: a duplicated 49-character header gets the
label `<49 chars>_1` (51 characters), which a second sanitizer pass
truncates to `<47 chars>...`, so the output is not a fixed point. -/
theorem C5_idempotence_counterexample :
    clean_column_names ((clean_column_names
        [some "AAAAAAAAAAAAAAAAAAAAAAAAAAAAAAAAAAAAAAAAAAAAAAAAA",
         some "AAAAAAAAAAAAAAAAAAAAAAAAAAAAAAAAAAAAAAAAAAAAAAAAA"]).map some) ≠
      clean_column_names
        [some "AAAAAAAAAAAAAAAAAAAAAAAAAAAAAAAAAAAAAAAAAAAAAAAAA",
         some "AAAAAAAAAAAAAAAAAAAAAAAAAAAAAAAAAAAAAAAAAAAAAAAAA"] := by
  decide

/-! ### Canonical labels: shape of the sanitizer's output strings -/

/-- No two adjacent spaces. -/
def noDbl (a b : Char) : Prop := ¬(a = ' ' ∧ b = ' ')

/-- Spacing discipline of sanitized labels: nonempty, no space at either
end, no two adjacent spaces, and every character is either a plain space
or not whitespace at all. -/
def spacedOk (l : List Char) : Prop :=
  l ≠ [] ∧ l.head? ≠ some ' ' ∧ l.getLast? ≠ some ' ' ∧ l.Chain' noDbl ∧
    ∀ c ∈ l, c = ' ' ∨ isWs c = false

/-- `spacedOk` without the trailing-edge condition (holds of truncations). -/
def spacedPre (l : List Char) : Prop :=
  l ≠ [] ∧ l.head? ≠ some ' ' ∧ l.Chain' noDbl ∧ ∀ c ∈ l, c = ' ' ∨ isWs c = false

/-- Full canonical-label predicate: spacing discipline plus absence of the
Excel-invalid characters. -/
def canonical (l : List Char) : Prop :=
  spacedOk l ∧ ∀ c ∈ l, c ∉ invalidChars

lemma dropWhile_id_of_head (l : List Char) (hh : l.head? ≠ some ' ')
    (hmem : ∀ c ∈ l, c = ' ' ∨ isWs c = false) : l.dropWhile isWs = l := by
  cases l with
  | nil => rfl
  | cons c t =>
    have hc : c ≠ ' ' := by intro h; exact hh (by simp [h])
    have hcw : isWs c = false := by
      rcases hmem c (by simp) with h | h
      · exact absurd h hc
      · exact h
    simp [List.dropWhile_cons, hcw]

lemma pyStrip_id_of_spacedOk (l : List Char) (h : spacedOk l) : pyStrip l = l := by
  obtain ⟨hne, hh, hl, _, hmem⟩ := h
  unfold pyStrip
  rw [dropWhile_id_of_head l hh hmem]
  rw [dropWhile_id_of_head l.reverse (by simpa using hl)
    (fun c hc => hmem c (List.mem_reverse.mp hc))]
  exact List.reverse_reverse l

lemma pyReplace_id (l : List Char) (a b : Char) (h : ∀ c ∈ l, c ≠ a) :
    pyReplace l a b = l := by
  unfold pyReplace
  induction l with
  | nil => rfl
  | cons c t ih =>
    simp only [List.map_cons]
    rw [if_neg (h c (by simp))]
    rw [ih (fun x hx => h x (by simp [hx]))]

lemma pySplitWsAux_ne_nil_acc :
    ∀ (l acc : List Char), acc ≠ [] → pySplitWsAux l acc ≠ [] := by
  intro l
  induction l with
  | nil => intro acc h; simp [pySplitWsAux, h]
  | cons c rest ih =>
    intro acc h
    rw [pySplitWsAux]
    by_cases hc : isWs c = true
    · rw [if_pos hc, if_neg h]; simp
    · rw [if_neg hc]; exact ih (c :: acc) (by simp)

lemma pySplitWs_ne_nil (l : List Char) (hne : l ≠ [])
    (hh : ∀ x, l.head? = some x → isWs x = false) : pySplitWs l ≠ [] := by
  cases l with
  | nil => exact absurd rfl hne
  | cons c rest =>
    have hcw : isWs c = false := hh c rfl
    unfold pySplitWs
    rw [pySplitWsAux, if_neg (by simp [hcw])]
    exact pySplitWsAux_ne_nil_acc rest [c] (by simp)

lemma pySplitWsAux_tokens :
    ∀ (l acc : List Char), (∀ c ∈ acc, isWs c = false) →
      ∀ t ∈ pySplitWsAux l acc, t ≠ [] ∧ ∀ c ∈ t, isWs c = false := by
  intro l
  induction l with
  | nil =>
    intro acc hacc t ht
    rw [pySplitWsAux] at ht
    by_cases h : acc = []
    · rw [if_pos h] at ht; simp at ht
    · rw [if_neg h] at ht
      simp only [List.mem_singleton] at ht
      subst ht
      refine ⟨by simpa using h, fun c hc => hacc c (List.mem_reverse.mp hc)⟩
  | cons c rest ih =>
    intro acc hacc t ht
    rw [pySplitWsAux] at ht
    by_cases hc : isWs c = true
    · rw [if_pos hc] at ht
      by_cases h : acc = []
      · rw [if_pos h] at ht
        exact ih [] (by simp) t ht
      · rw [if_neg h] at ht
        rcases List.mem_cons.mp ht with rfl | ht2
        · exact ⟨by simpa using h, fun x hx => hacc x (List.mem_reverse.mp hx)⟩
        · exact ih [] (by simp) t ht2
    · rw [if_neg hc] at ht
      refine ih (c :: acc) ?_ t ht
      intro x hx
      rcases List.mem_cons.mp hx with rfl | hx2
      · simpa using hc
      · exact hacc x hx2

lemma chain'_noDbl_of_no_space (l : List Char) (h : ∀ c ∈ l, c ≠ ' ') :
    l.Chain' noDbl := by
  induction l with
  | nil => exact List.chain'_nil
  | cons c t ih =>
    refine List.chain'_cons'.mpr ⟨?_, ih (fun x hx => h x (by simp [hx]))⟩
    intro y _ hy
    exact h c (by simp) hy.1

lemma pyJoinSp_spacedOk :
    ∀ ts : List (List Char), ts ≠ [] →
      (∀ t ∈ ts, t ≠ [] ∧ ∀ c ∈ t, isWs c = false) → spacedOk (pyJoinSp ts) := by
  intro ts
  induction ts with
  | nil => intro h; exact absurd rfl h
  | cons t rest ih =>
    intro _ htoks
    obtain ⟨htne, htws⟩ := htoks t (by simp)
    have htsp : ∀ c ∈ t, c ≠ ' ' := by
      intro c hc he
      have := htws c hc
      rw [he] at this
      simp [isWs] at this
    cases rest with
    | nil =>
      have hjoin : pyJoinSp [t] = t := rfl
      rw [hjoin]
      refine ⟨htne, ?_, ?_, chain'_noDbl_of_no_space t htsp, ?_⟩
      · intro h
        cases t with
        | nil => simp at h
        | cons a b => exact htsp a (by simp) (by simpa using h)
      · intro h
        exact htsp ' ' (List.mem_of_getLast?_eq_some h) rfl
      · intro c hc
        exact Or.inr (htws c hc)
    | cons t2 rest2 =>
      have hjoin : pyJoinSp (t :: t2 :: rest2) = t ++ ' ' :: pyJoinSp (t2 :: rest2) := rfl
      obtain ⟨Jne, Jh, Jl, Jc, Jm⟩ := ih (by simp)
        (fun x hx => htoks x (List.mem_cons_of_mem t hx))
      rw [hjoin]
      refine ⟨by simp [htne], ?_, ?_, ?_, ?_⟩
      · cases t with
        | nil => exact absurd rfl htne
        | cons a b =>
          intro h
          exact htsp a (by simp) (by simpa using h)
      · rw [List.getLast?_append_of_ne_nil _ (by simp)]
        cases hJ : pyJoinSp (t2 :: rest2) with
        | nil => exact absurd hJ Jne
        | cons j js =>
          rw [List.getLast?_cons_cons]
          rw [hJ] at Jl
          exact Jl
      · rw [List.chain'_append]
        refine ⟨chain'_noDbl_of_no_space t htsp, ?_, ?_⟩
        · refine List.chain'_cons'.mpr ⟨?_, Jc⟩
          intro y hy hdbl
          rw [hdbl.2] at hy
          exact Jh hy
        · intro x hx y hy hdbl
          exact htsp x (List.mem_of_mem_getLast? hx) hdbl.1
      · intro c hc
        rcases List.mem_append.mp hc with h | h
        · exact Or.inr (htws c h)
        · rcases List.mem_cons.mp h with rfl | h2
          · exact Or.inl rfl
          · exact Jm c h2

lemma spacedOk_pyReplace (l : List Char) (a : Char) (ha : a ≠ ' ')
    (h : spacedOk l) : spacedOk (pyReplace l a '_') := by
  obtain ⟨hne, hh, hl, hc, hmem⟩ := h
  have himg : ∀ c : Char, (if c = a then '_' else c) = ' ' → c = ' ' := by
    intro c hcc
    by_cases h2 : c = a
    · rw [if_pos h2] at hcc; exact absurd hcc (by decide)
    · rwa [if_neg h2] at hcc
  refine ⟨by simpa [pyReplace] using hne, ?_, ?_, ?_, ?_⟩
  · rw [pyReplace, List.head?_map]
    intro hcon
    obtain ⟨v, hv, hfv⟩ := Option.map_eq_some'.mp hcon
    exact hh (by rw [hv, himg v hfv])
  · rw [pyReplace, List.getLast?_map]
    intro hcon
    obtain ⟨v, hv, hfv⟩ := Option.map_eq_some'.mp hcon
    exact hl (by rw [hv, himg v hfv])
  · rw [pyReplace]
    rw [List.chain'_map]
    refine hc.imp ?_
    intro x y hxy hcon
    exact hxy ⟨himg x hcon.1, himg y hcon.2⟩
  · intro c hcmem
    obtain ⟨x, hx, rfl⟩ := List.mem_map.mp hcmem
    rcases hmem x hx with h2 | h2
    · subst h2
      left
      rw [if_neg (fun hcon : (' ' : Char) = a => ha hcon.symm)]
    · right
      by_cases h3 : x = a
      · rw [if_pos h3]; decide
      · rw [if_neg h3]; exact h2

lemma spacedOk_foldl_replace (cs : List Char) (hcs : ∀ a ∈ cs, a ≠ ' ') :
    ∀ l, spacedOk l → spacedOk (cs.foldl (fun s ch => pyReplace s ch '_') l) := by
  induction cs with
  | nil => intro l h; exact h
  | cons a cs2 ih =>
    intro l h
    rw [List.foldl_cons]
    exact ih (fun x hx => hcs x (by simp [hx]))
      _ (spacedOk_pyReplace l a (hcs a (by simp)) h)

lemma not_mem_foldl_replace (a : Char) (hau : a ≠ '_') :
    ∀ (cs : List Char) (l : List Char), (∀ c ∈ l, c ≠ a) →
      ∀ c ∈ cs.foldl (fun s ch => pyReplace s ch '_') l, c ≠ a := by
  intro cs
  induction cs with
  | nil => intro l h c hc; exact h c hc
  | cons b cs2 ih =>
    intro l h c hc
    rw [List.foldl_cons] at hc
    refine ih (pyReplace l b '_') ?_ c hc
    intro x hx
    obtain ⟨y, hy, rfl⟩ := List.mem_map.mp hx
    by_cases h2 : y = b
    · rw [if_pos h2]; exact fun hcon => hau hcon.symm
    · rw [if_neg h2]; exact h y hy

lemma foldl_replace_no_invalid :
    ∀ (l : List Char) (c : Char),
      c ∈ invalidChars.foldl (fun s ch => pyReplace s ch '_') l →
      c ∉ invalidChars := by
  have key : ∀ (a : Char), a ∈ invalidChars → a ≠ '_' := by decide
  intro l c hc hbad
  -- process the fold one invalid character at a time, tracking that once a
  -- character has been replaced it can never reappear
  revert hc
  -- c is one of the invalid characters; after its own pass it is gone
  have gen : ∀ (cs : List Char) (l0 : List Char), c ∈ cs ∨ (∀ x ∈ l0, x ≠ c) →
      ∀ x ∈ cs.foldl (fun s ch => pyReplace s ch '_') l0, x ≠ c := by
    intro cs
    induction cs with
    | nil =>
      intro l0 h x hx
      rcases h with h | h
      · simp at h
      · exact h x hx
    | cons b cs2 ih =>
      intro l0 h x hx
      rw [List.foldl_cons] at hx
      by_cases hbc : b = c
      · refine ih (pyReplace l0 b '_') (Or.inr ?_) x hx
        intro y hy
        obtain ⟨z, hz, rfl⟩ := List.mem_map.mp hy
        by_cases h2 : z = b
        · rw [if_pos h2]
          intro hcon
          exact key c hbad hcon.symm
        · rw [if_neg h2]
          rw [hbc] at h2
          exact h2
      · rcases h with h | h
        · rcases List.mem_cons.mp h with h2 | h2
          · exact absurd h2.symm hbc
          · exact ih (pyReplace l0 b '_') (Or.inl h2) x hx
        · refine ih (pyReplace l0 b '_') (Or.inr ?_) x hx
          intro y hy
          obtain ⟨z, hz, rfl⟩ := List.mem_map.mp hy
          by_cases h2 : z = b
          · rw [if_pos h2]
            intro hcon
            exact key c hbad hcon.symm
          · rw [if_neg h2]
            exact h z hz
  intro hc
  exact gen invalidChars l (Or.inl hbad) c hc rfl

lemma spacedPre_take (l : List Char) (k : Nat) (hk : 1 ≤ k) (h : spacedOk l) :
    spacedPre (l.take k) := by
  obtain ⟨hne, hh, _, hc, hmem⟩ := h
  cases l with
  | nil => exact absurd rfl hne
  | cons c t =>
    cases k with
    | zero => omega
    | succ k2 =>
      refine ⟨by simp, ?_, ?_, ?_⟩
      · simpa using hh
      · have := List.take_append_drop (k2 + 1) (c :: t)
        have hcc : List.Chain' noDbl (((c :: t).take (k2 + 1)) ++ ((c :: t).drop (k2 + 1))) := by
          rw [this]; exact hc
        exact (List.chain'_append.mp hcc).1
      · intro x hx
        exact hmem x ((List.take_sublist _ _).subset hx)

lemma spacedOk_append_solid (l s : List Char) (hpre : spacedPre l) (hs : s ≠ [])
    (hsolid : ∀ c ∈ s, isWs c = false) : spacedOk (l ++ s) := by
  obtain ⟨hne, hh, hc, hmem⟩ := hpre
  have hssp : ∀ c ∈ s, c ≠ ' ' := by
    intro c hcm he
    have := hsolid c hcm
    rw [he] at this
    simp [isWs] at this
  refine ⟨by simp [hne], ?_, ?_, ?_, ?_⟩
  · cases l with
    | nil => exact absurd rfl hne
    | cons a t => simpa using hh
  · rw [List.getLast?_append_of_ne_nil _ hs]
    intro hcon
    exact hssp ' ' (List.mem_of_getLast?_eq_some hcon) rfl
  · rw [List.chain'_append]
    refine ⟨hc, chain'_noDbl_of_no_space s hssp, ?_⟩
    intro x _ y hy hdbl
    rcases s with _ | ⟨b, bs⟩
    · simp at hy
    · have hyb : b = y := by simpa using hy
      exact hssp b (by simp) (hyb.trans hdbl.2)
  · intro c hcm
    rcases List.mem_append.mp hcm with h2 | h2
    · exact hmem c h2
    · exact Or.inr (hsolid c h2)

lemma solid_column_chars :
    ∀ c ∈ ("Column_" : String).data, isWs c = false ∧ c ∉ invalidChars := by
  decide

lemma natRepr_solid (n : Nat) :
    ∀ c ∈ (natRepr n).data, isWs c = false ∧ c ∉ invalidChars := by
  rw [natRepr_eq]
  by_cases hn : n = 0
  · rw [if_pos hn]; decide
  · rw [if_neg hn]
    intro c hc
    simp only [List.mem_reverse] at hc
    obtain ⟨d, hd, rfl⟩ := List.mem_map.mp (by simpa using hc)
    have hd10 : d < 10 := Nat.digits_lt_base (by norm_num) hd
    have key : ∀ d < 10, isWs (digitCh d) = false ∧ digitCh d ∉ invalidChars := by
      decide
    exact key d hd10

lemma string_data_append (a b : String) : (a ++ b).data = a.data ++ b.data := by
  cases a; cases b; rfl

lemma string_data_mk (l : List Char) : (String.mk l).data = l := rfl

lemma canonical_colName (i : Nat) : canonical ("Column_" ++ natRepr (i + 1)).data := by
  rw [string_data_append]
  have hsolid : ∀ c ∈ ("Column_" : String).data ++ (natRepr (i + 1)).data,
      isWs c = false ∧ c ∉ invalidChars := by
    intro c hc
    rcases List.mem_append.mp hc with h | h
    · exact solid_column_chars c h
    · exact natRepr_solid (i + 1) c h
  have hne : ("Column_" : String).data ++ (natRepr (i + 1)).data ≠ [] := by simp
  have hnsp : ∀ c ∈ ("Column_" : String).data ++ (natRepr (i + 1)).data, c ≠ ' ' := by
    intro c hc he
    have := (hsolid c hc).1
    rw [he] at this
    simp [isWs] at this
  refine ⟨⟨hne, ?_, ?_, chain'_noDbl_of_no_space _ hnsp, ?_⟩, ?_⟩
  · intro hcon
    cases hx : (("Column_" : String).data ++ (natRepr (i + 1)).data) with
    | nil => exact hne hx
    | cons a t =>
      rw [hx] at hcon
      have ha : a = ' ' := by simpa using hcon
      exact hnsp a (by rw [hx]; simp) ha
  · intro hcon
    exact hnsp ' ' (List.mem_of_getLast?_eq_some hcon) rfl
  · intro c hc
    exact Or.inr (hsolid c hc).1
  · intro c hc
    exact (hsolid c hc).2

lemma head?_dropWhile_false (p : Char → Bool) :
    ∀ (m : List Char) (x : Char), (m.dropWhile p).head? = some x → p x = false := by
  intro m
  induction m with
  | nil => intro x hx; simp at hx
  | cons a t ih =>
    intro x hx
    rw [List.dropWhile_cons] at hx
    by_cases hp : p a = true
    · rw [if_pos hp] at hx; exact ih x hx
    · rw [if_neg hp] at hx
      have : a = x := by simpa using hx
      rw [← this]
      simpa using hp

lemma getLast?_dropWhile (p : Char → Bool) :
    ∀ m : List Char, m.dropWhile p ≠ [] →
      (m.dropWhile p).getLast? = m.getLast? := by
  intro m
  induction m with
  | nil => simp
  | cons a t ih =>
    intro hne
    rw [List.dropWhile_cons] at hne ⊢
    by_cases hp : p a = true
    · rw [if_pos hp] at hne ⊢
      rw [ih hne]
      cases t with
      | nil => simp at hne
      | cons b bs => rw [List.getLast?_cons_cons]
    · rw [if_neg hp]

lemma pyStrip_head_not_ws (l : List Char) :
    ∀ x, (pyStrip l).head? = some x → isWs x = false := by
  intro x hx
  unfold pyStrip at hx
  rw [List.head?_reverse] at hx
  have hBne : (l.dropWhile isWs).reverse.dropWhile isWs ≠ [] := by
    intro hcon
    rw [hcon] at hx
    simp at hx
  rw [getLast?_dropWhile isWs _ hBne] at hx
  rw [List.getLast?_reverse] at hx
  exact head?_dropWhile_false isWs l x hx

lemma pyStrip_getLast_not_ws (l : List Char) :
    ∀ x, (pyStrip l).getLast? = some x → isWs x = false := by
  intro x hx
  unfold pyStrip at hx
  rw [List.getLast?_reverse] at hx
  exact head?_dropWhile_false isWs (l.dropWhile isWs).reverse x hx

lemma canonical_clean_core (h1 : List Char) (hne : h1 ≠ [])
    (hh : ∀ x, h1.head? = some x → isWs x = false) :
    canonical (clean_core h1) := by
  obtain ⟨c, t, rfl⟩ : ∃ c t, h1 = c :: t := by
    cases h1 with
    | nil => exact absurd rfl hne
    | cons c t => exact ⟨c, t, rfl⟩
  have hcw : isWs c = false := hh c rfl
  have hcn : c ≠ '\n' := by
    intro h; rw [h] at hcw; simp [isWs] at hcw
  have hcr : c ≠ '\r' := by
    intro h; rw [h] at hcw; simp [isWs] at hcw
  unfold clean_core
  have hm2 : pyReplace (pyReplace (c :: t) '\n' ' ') '\r' ' ' =
      c :: pyReplace (pyReplace t '\n' ' ') '\r' ' ' := by
    simp only [pyReplace, List.map_cons]
    rw [if_neg hcn, if_neg hcr]
  rw [hm2]
  have h3ok : spacedOk (collapse_ws (c :: pyReplace (pyReplace t '\n' ' ') '\r' ' ')) := by
    refine pyJoinSp_spacedOk _ ?_ ?_
    · refine pySplitWs_ne_nil _ (by simp) ?_
      intro x hx
      have : c = x := by simpa using hx
      rw [← this]
      exact hcw
    · exact pySplitWsAux_tokens _ [] (by simp)
  have h4ok : spacedOk (invalidChars.foldl (fun s ch => pyReplace s ch '_')
      (collapse_ws (c :: pyReplace (pyReplace t '\n' ' ') '\r' ' '))) :=
    spacedOk_foldl_replace invalidChars (by decide) _ h3ok
  have h4ni := fun x hx => foldl_replace_no_invalid
    (collapse_ws (c :: pyReplace (pyReplace t '\n' ' ') '\r' ' ')) x hx
  by_cases hlen : (invalidChars.foldl (fun s ch => pyReplace s ch '_')
      (collapse_ws (c :: pyReplace (pyReplace t '\n' ' ') '\r' ' '))).length > 50
  · rw [if_pos hlen]
    refine ⟨spacedOk_append_solid _ _ (spacedPre_take _ 47 (by norm_num) h4ok)
      (by simp) (by decide), ?_⟩
    intro x hx
    rcases List.mem_append.mp hx with h2 | h2
    · exact h4ni x ((List.take_sublist _ _).subset h2)
    · have : x = '.' := by simpa using h2
      rw [this]; decide
  · rw [if_neg hlen]
    exact ⟨h4ok, h4ni⟩

lemma canonical_clean_cell (i : Nat) (cell : Option String) :
    canonical (clean_cell i cell).data := by
  cases cell with
  | none => exact canonical_colName i
  | some h0 =>
    by_cases h1e : pyStrip h0.data = []
    · have heq : clean_cell i (some h0) = "Column_" ++ natRepr (i + 1) := by
        show (if pyStrip h0.data = [] then ("Column_" ++ natRepr (i + 1))
          else String.mk (clean_core (pyStrip h0.data))) = "Column_" ++ natRepr (i + 1)
        rw [if_pos h1e]
      rw [heq]
      exact canonical_colName i
    · have heq : clean_cell i (some h0) = String.mk (clean_core (pyStrip h0.data)) := by
        show (if pyStrip h0.data = [] then ("Column_" ++ natRepr (i + 1))
          else String.mk (clean_core (pyStrip h0.data))) = String.mk (clean_core (pyStrip h0.data))
        rw [if_neg h1e]
      rw [heq, string_data_mk]
      exact canonical_clean_core (pyStrip h0.data) h1e (pyStrip_head_not_ws h0.data)

lemma canonical_uCand (orig : String) (k : Nat) (h : canonical orig.data) :
    canonical (uCand orig k).data := by
  have hdata : (uCand orig k).data = orig.data ++ ('_' :: (natRepr k).data) := by
    unfold uCand
    rw [string_data_append, string_data_append]
    simp
  rw [hdata]
  obtain ⟨⟨hne, hh, _, hc, hmem⟩, hni⟩ := h
  refine ⟨spacedOk_append_solid _ _ ⟨hne, hh, hc, hmem⟩ (by simp) ?_, ?_⟩
  · intro x hx
    rcases List.mem_cons.mp hx with rfl | h2
    · decide
    · exact (natRepr_solid k x h2).1
  · intro x hx
    rcases List.mem_append.mp hx with h2 | h2
    · exact hni x h2
    · rcases List.mem_cons.mp h2 with rfl | h3
      · decide
      · exact (natRepr_solid k x h3).2

lemma canonical_uniquify (seen : List String) (h : String) (hc : canonical h.data) :
    canonical (uniquify seen h).data := by
  unfold uniquify
  by_cases hm : h ∈ seen
  · rw [if_pos hm]
    obtain ⟨k, hk⟩ := uniquifyAux_shape seen h (seen.length + 1) 1
    rw [hk]
    exact canonical_uCand h k hc
  · rw [if_neg hm]
    exact hc

lemma clean_go_canonical : ∀ (cs : List (Option String)) (i : Nat) (seen : List String),
    ∀ l ∈ clean_go i cs seen, canonical l.data := by
  intro cs
  induction cs with
  | nil => intro i seen l hl; simp [clean_go] at hl
  | cons c rest ih =>
    intro i seen l hl
    rw [clean_go] at hl
    rcases List.mem_cons.mp hl with rfl | h2
    · exact canonical_uniquify seen (clean_cell i c) (canonical_clean_cell i c)
    · exact ih (i + 1) _ l h2

/-! ### Collapsing whitespace is the identity on canonical labels -/

lemma joinSplitAux : ∀ l : List Char,
    (∀ c ∈ l, c = ' ' ∨ isWs c = false) → l.Chain' noDbl → l.getLast? ≠ some ' ' →
    ((l.head? ≠ some ' ' → pyJoinSp (pySplitWsAux l []) = l) ∧
     (∀ acc, acc ≠ [] → pyJoinSp (pySplitWsAux l acc) = acc.reverse ++ l)) := by
  intro l
  induction l with
  | nil =>
    intro _ _ _
    constructor
    · intro _; rfl
    · intro acc hacc
      rw [pySplitWsAux, if_neg hacc]
      simp [pyJoinSp]
  | cons c rest ih =>
    intro hmem hchain hlast
    have hmem2 : ∀ x ∈ rest, x = ' ' ∨ isWs x = false :=
      fun x hx => hmem x (by simp [hx])
    have hchain2 : rest.Chain' noDbl := hchain.tail
    constructor
    · intro hhead
      have hc : c ≠ ' ' := by intro h; exact hhead (by simp [h])
      have hcw : isWs c = false := by
        rcases hmem c (by simp) with h | h
        · exact absurd h hc
        · exact h
      show pyJoinSp (pySplitWsAux (c :: rest) []) = c :: rest
      rw [pySplitWsAux, if_neg (by simp [hcw])]
      have hlast2 : rest.getLast? ≠ some ' ' := by
        cases rest with
        | nil => simp
        | cons d r2 => simpa using hlast
      have := (ih hmem2 hchain2 hlast2).2 [c] (by simp)
      rw [this]
      simp
    · intro acc hacc
      rw [pySplitWsAux]
      by_cases hcw : isWs c = true
      · have hc : c = ' ' := by
          rcases hmem c (by simp) with h | h
          · exact h
          · rw [h] at hcw; cases hcw
        rw [if_pos hcw, if_neg hacc]
        have hrne : rest ≠ [] := by
          intro h
          rw [h] at hlast
          rw [hc] at hlast
          simp at hlast
        have hhead2 : rest.head? ≠ some ' ' := by
          cases rest with
          | nil => simp
          | cons d r2 =>
            intro hcon
            have hd : d = ' ' := by simpa using hcon
            have := (List.chain'_cons.mp hchain).1
            exact this ⟨hc, hd⟩
        have hlast2 : rest.getLast? ≠ some ' ' := by
          cases rest with
          | nil => simp
          | cons d r2 => simpa using hlast
        have ihp := (ih hmem2 hchain2 hlast2).1 hhead2
        have hne2 : pySplitWsAux rest [] ≠ [] := by
          cases rest with
          | nil => exact absurd rfl hrne
          | cons d r2 =>
            have hd : d ≠ ' ' := by intro h; exact hhead2 (by simp [h])
            have hdw : isWs d = false := by
              rcases hmem2 d (by simp) with h | h
              · exact absurd h hd
              · exact h
            rw [pySplitWsAux, if_neg (by simp [hdw])]
            exact pySplitWsAux_ne_nil_acc r2 [d] (by simp)
        cases hx : pySplitWsAux rest [] with
        | nil => exact absurd hx hne2
        | cons s ss =>
          unfold pySplitWs at ihp
          rw [hx] at ihp
          have hj : pyJoinSp (acc.reverse :: s :: ss) =
              acc.reverse ++ ' ' :: pyJoinSp (s :: ss) := rfl
          rw [hj, ihp, hc]
      · rw [if_neg hcw]
        have := (ih hmem2 hchain2 (by
          cases rest with
          | nil => simp
          | cons d r2 => simpa using hlast)).2 (c :: acc) (by simp)
        rw [this]
        simp

lemma collapse_ws_id (l : List Char) (h : spacedOk l) : collapse_ws l = l := by
  obtain ⟨hne, hh, hl, hc, hmem⟩ := h
  exact (joinSplitAux l hmem hc hl).1 hh

lemma foldl_replace_id (l : List Char) :
    ∀ cs : List Char, (∀ c ∈ l, c ∉ cs) →
      cs.foldl (fun s ch => pyReplace s ch '_') l = l := by
  intro cs
  induction cs with
  | nil => intro _; rfl
  | cons a cs2 ih =>
    intro h
    rw [List.foldl_cons]
    rw [pyReplace_id l a '_' (fun c hc => fun hcon => h c hc (by simp [hcon]))]
    exact ih (fun c hc => fun hcon => h c hc (by simp [hcon]))

lemma clean_core_id (l : List Char) (h : canonical l) (hlen : l.length ≤ 50) :
    clean_core l = l := by
  obtain ⟨hsp, hni⟩ := h
  have hmem := hsp.2.2.2.2
  have hno_nl : ∀ c ∈ l, c ≠ '\n' := by
    intro c hc hcon
    rcases hmem c hc with h2 | h2
    · rw [hcon] at h2; cases h2
    · rw [hcon] at h2; simp [isWs] at h2
  have hno_cr : ∀ c ∈ l, c ≠ '\r' := by
    intro c hc hcon
    rcases hmem c hc with h2 | h2
    · rw [hcon] at h2; cases h2
    · rw [hcon] at h2; simp [isWs] at h2
  show (if (invalidChars.foldl (fun s ch => pyReplace s ch '_')
      (collapse_ws (pyReplace (pyReplace l '\n' ' ') '\r' ' '))).length > 50
    then (invalidChars.foldl (fun s ch => pyReplace s ch '_')
      (collapse_ws (pyReplace (pyReplace l '\n' ' ') '\r' ' '))).take 47 ++ ['.', '.', '.']
    else invalidChars.foldl (fun s ch => pyReplace s ch '_')
      (collapse_ws (pyReplace (pyReplace l '\n' ' ') '\r' ' '))) = l
  rw [pyReplace_id l '\n' ' ' hno_nl, pyReplace_id l '\r' ' ' hno_cr]
  rw [collapse_ws_id l hsp]
  rw [foldl_replace_id l invalidChars hni]
  rw [if_neg (by omega)]

lemma clean_cell_stable (i : Nat) (lbl : String) (h : canonical lbl.data)
    (hlen : lbl.data.length ≤ 50) : clean_cell i (some lbl) = lbl := by
  have hsp := h.1
  have hstrip : pyStrip lbl.data = lbl.data := pyStrip_id_of_spacedOk lbl.data hsp
  have hne : pyStrip lbl.data ≠ [] := by rw [hstrip]; exact hsp.1
  have heq : clean_cell i (some lbl) = String.mk (clean_core (pyStrip lbl.data)) := by
    show (if pyStrip lbl.data = [] then ("Column_" ++ natRepr (i + 1))
      else String.mk (clean_core (pyStrip lbl.data))) =
      String.mk (clean_core (pyStrip lbl.data))
    rw [if_neg hne]
  rw [heq, hstrip, clean_core_id lbl.data h hlen]

lemma clean_go_stable : ∀ (ls : List String) (i : Nat) (seen : List String),
    (∀ l ∈ ls, canonical l.data ∧ l.data.length ≤ 50) →
    (∀ l ∈ ls, l ∉ seen) → ls.Nodup →
    clean_go i (ls.map some) seen = ls := by
  intro ls
  induction ls with
  | nil => intro i seen _ _ _; rfl
  | cons l0 rest ih =>
    intro i seen hcl hseen hnd
    rw [List.map_cons, clean_go]
    obtain ⟨hc0, hl0⟩ := hcl l0 (by simp)
    rw [clean_cell_stable i l0 hc0 hl0]
    have hlbl : uniquify seen l0 = l0 := by
      unfold uniquify
      rw [if_neg (hseen l0 (by simp))]
    rw [hlbl]
    rw [ih (i + 1) (l0 :: seen) (fun l hl => hcl l (by simp [hl])) ?_
      (List.nodup_cons.mp hnd).2]
    intro l hl
    intro hcon
    rcases List.mem_cons.mp hcon with rfl | h2
    · exact (List.nodup_cons.mp hnd).1 hl
    · exact hseen l (by simp [hl]) h2

/-- Claim C5 amended: the header sanitizer is idempotent on every header
row whose sanitized labels all fit in the 50-character limit (the claim as
stated fails when a uniquification suffix pushes a label past 50
characters — see the counterexample). -/
theorem C5_sanitizer_idempotent_on_short (headers : List (Option String))
    (h50 : ∀ l ∈ clean_column_names headers, l.length ≤ 50) :
    clean_column_names ((clean_column_names headers).map some) =
      clean_column_names headers := by
  unfold clean_column_names at h50 ⊢
  apply clean_go_stable (clean_go 0 headers []) 0 []
  · intro l hl
    exact ⟨clean_go_canonical headers 0 [] l hl, h50 l hl⟩
  · intro l _
    simp
  · exact (clean_go_nodup headers 0 []).1

/-- Witness for the amended C5 at the concrete header row
`["Name", "Name"]`. -/
theorem C5_sanitizer_idempotent_on_short_witness :
    (∀ l ∈ clean_column_names [some "Name", some "Name"], l.length ≤ 50) ∧
    clean_column_names ((clean_column_names [some "Name", some "Name"]).map some) =
      clean_column_names [some "Name", some "Name"] :=
  ⟨by decide, C5_sanitizer_idempotent_on_short [some "Name", some "Name"] (by decide)⟩

/-! ### The type detector `PDFExtractor.is_text_based` -/

/-- Outcome of `page.extract_text()` for one page: `ok s` is a successful
extraction (Python `None` is modelled as the empty string, which is falsy
exactly like `None` in the `if text and ...` guard), and `err` stands for
an exception raised while reading the page. -/
inductive PageTextRes where
  | ok (s : String)
  | err
deriving DecidableEq

/-- Python `s.strip()` on a `String` (kernel-computable, unlike
`String.trim`). -/
def pyStripS (s : String) : String := String.mk (pyStrip s.data)

/-- `PDFExtractor.is_text_based` (src/core/extractor.py 54-73): walk the
pages in order; return `True` at the first page whose stripped text is
longer than 50 characters; an exception aborts the walk and the handler
returns `False`; falling off the end returns `False`. -/
def is_text_based_run : List PageTextRes → Bool
  | [] => false
  | .err :: _ => false
  | .ok s :: rest =>
    if s ≠ "" ∧ (pyStripS s).length > 50 then true else is_text_based_run rest

/-- Claim C7: in an error-free run the detector reports TextBased exactly
when some single page's stripped text exceeds the 50-character threshold;
and when an extraction error is raised (no earlier page having crossed the
threshold), the detector returns ImageBased (`false`) instead of
propagating the exception. -/
theorem C7_type_detector (pages : List PageTextRes) :
    ((∀ r ∈ pages, r ≠ PageTextRes.err) →
      (is_text_based_run pages = true ↔
        ∃ s, PageTextRes.ok s ∈ pages ∧ 50 < (pyStripS s).length)) ∧
    (∀ pre rest, pages = pre ++ PageTextRes.err :: rest →
      (∀ s, PageTextRes.ok s ∈ pre → (pyStripS s).length ≤ 50) →
      is_text_based_run pages = false) := by
  induction pages with
  | nil =>
    constructor
    · intro _
      constructor
      · intro h; cases h
      · intro ⟨s, hs, _⟩; simp at hs
    · intro pre rest hcon _
      exact absurd hcon (by simp)
  | cons r rest ih =>
    constructor
    · intro hne
      cases r with
      | err => exact absurd rfl (hne .err (by simp))
      | ok s =>
        rw [is_text_based_run]
        by_cases hs : s ≠ "" ∧ (pyStripS s).length > 50
        · rw [if_pos hs]
          simp only [true_iff]
          exact ⟨s, by simp, hs.2⟩
        · rw [if_neg hs]
          rw [(ih.1 (fun x hx => hne x (by simp [hx])))]
          constructor
          · intro ⟨t, ht, htl⟩
            exact ⟨t, by simp [ht], htl⟩
          · intro ⟨t, ht, htl⟩
            rcases List.mem_cons.mp ht with heq | h2
            · exfalso
              have hts : t = s := by
                injection heq with hts
              rw [hts] at htl
              apply hs
              constructor
              · intro hcon
                rw [hcon] at htl
                exact absurd htl (by decide)
              · exact htl
            · exact ⟨t, h2, htl⟩
    · intro pre tail hsplit hsmall
      cases pre with
      | nil =>
        injection hsplit with h1 h2
        rw [h1]
        rfl
      | cons p pre2 =>
        have h1 : r = p := by
          have := congrArg List.head? hsplit
          simpa using this
        have h2 : rest = pre2 ++ PageTextRes.err :: tail := by
          have := congrArg List.tail hsplit
          simpa using this
        rw [h1, h2]
        cases p with
        | err => rfl
        | ok s =>
          rw [is_text_based_run]
          have hns : ¬(s ≠ "" ∧ (pyStripS s).length > 50) := by
            intro hcon
            have := hsmall s (by simp)
            omega
          rw [if_neg hns]
          exact h2 ▸ ih.2 pre2 tail h2 (fun t ht => hsmall t (by simp [ht]))

/-- Witness for C7: a long first page makes the document TextBased, and a
run hitting an error with no prior qualifying page yields ImageBased. -/
theorem C7_type_detector_witness :
    is_text_based_run [PageTextRes.ok
      "This page carries well over fifty characters of extractable text."] = true ∧
    is_text_based_run [PageTextRes.ok "short", PageTextRes.err] = false := by
  constructor
  · exact (C7_type_detector _).1 (by decide) |>.mpr
      ⟨"This page carries well over fifty characters of extractable text.",
        by decide, by decide⟩
  · refine (C7_type_detector _).2 [PageTextRes.ok "short"] [] rfl ?_
    intro t ht
    have : t = "short" := by simpa using ht
    rw [this]
    decide

/-! ### The extraction pipeline of `PDFExtractor.extract`

A pandas DataFrame is modelled as its ordered list of named columns; every
construction in the pipeline gives all columns of one frame the same
length.  Frames built from a Python dict of lists / list of dicts are
written column-wise here, in the source's key order. -/

/-- A DataFrame cell value: page numbers / indices / counts are Python
ints, text cells are strings, `null` is Python `None`/NaN. -/
inductive Val where
  | nat (n : Nat)
  | str (s : String)
  | null
deriving DecidableEq

/-- A word with its bounding box (`page.extract_words()`).  Coordinates
are abstracted to naturals; no claim inspects them. -/
structure Word where
  text : String
  x0 : Nat
  top : Nat
  width : Nat
  height : Nat
deriving DecidableEq

/-- An image descriptor (`page.images`). -/
structure Img where
  x0 : Nat
  top : Nat
  width : Nat
  height : Nat
deriving DecidableEq

/-- An annotation descriptor (`page.annots`); `get("subtype", "Unknown")`
is modelled by a plain string field. -/
structure Annot where
  subtype : String
  x0 : Nat
  top : Nat
deriving DecidableEq

/-- One page as seen through the PDF-reading capability: plain text (`""`
models `None`, which is falsy in every guard exactly like the empty
string), word list, raw table candidates (cells may be `None`), images and
annotations, plus the text the OCR capability yields for the page's
rendering. -/
structure PdfPage where
  text : String
  words : List Word
  tables : List (List (List (Option String)))
  images : List Img
  annots : List Annot
  ocrText : String
deriving DecidableEq

/-- A document is its list of pages; `total_pages` is its length. -/
abbrev Document := List PdfPage

/-- pandas DataFrame: ordered association list of column name to values. -/
structure DF where
  cols : List (String × List Val)
deriving DecidableEq

def DF.columns (d : DF) : List String := d.cols.map Prod.fst

def DF.hasCol (d : DF) (name : String) : Bool := decide (name ∈ d.columns)

/-- `df[name]` — the first column with the given name (`[]` if absent). -/
def DF.col (d : DF) (name : String) : List Val :=
  match d.cols.find? (fun c => c.fst = name) with
  | some c => c.snd
  | none => []

/-- `len(df)`. -/
def DF.nrows (d : DF) : Nat :=
  match d.cols with
  | [] => 0
  | c :: _ => c.snd.length

/-- Positional insertion, as in `df.insert(loc, ...)`. -/
def insertAt (a : α) : Nat → List α → List α
  | 0, l => a :: l
  | _ + 1, [] => [a]
  | n + 1, b :: l => b :: insertAt a n l

/-- `df.insert(loc, name, scalar)` — broadcast a scalar to a new column. -/
def DF.insertScalar (d : DF) (loc : Nat) (name : String) (v : Val) : DF :=
  ⟨insertAt (name, List.replicate d.nrows v) loc d.cols⟩

/-- Attach `Page` / `Table_Index` metadata columns only if absent
(src/core/extractor.py 129-133, 151-154, 239-242). -/
def addMeta (p : Nat) (ti : Nat) (d : DF) : DF :=
  let d1 := if d.hasCol "Page" then d else d.insertScalar 0 "Page" (Val.nat p)
  if d1.hasCol "Table_Index" then d1 else d1.insertScalar 1 "Table_Index" (Val.nat ti)

/-- A table cell as stored by pandas: `None` stays missing, text stays
text. -/
def cellVal : Option String → Val
  | none => Val.null
  | some s => Val.str s

/-- 1-based enumeration, as in `enumerate(pdf.pages, start=1)`. -/
def enum1 (l : List α) : List (Nat × α) := (List.range' 1 l.length).zip l

/-- Python `text.split('\n')` (keeps empty pieces). -/
def splitNlAux : List Char → List Char → List (List Char)
  | [], acc => [acc.reverse]
  | c :: rest, acc =>
    if c = '\n' then acc.reverse :: splitNlAux rest []
    else splitNlAux rest (c :: acc)

def pySplitNl (s : String) : List String := (splitNlAux s.data []).map String.mk

/-- `[line.strip() for line in text.split('\n') if line.strip()]`. -/
def pyLines (text : String) : List String :=
  ((pySplitNl text).map pyStripS).filter (fun l => decide (l ≠ ""))

/-- Keep table rows that are non-empty and have some cell with non-blank
text (src/core/extractor.py 104-108). -/
def filterTableRows (table : List (List (Option String))) :
    List (List (Option String)) :=
  table.filter (fun row => decide (row ≠ []) &&
    row.any (fun c =>
      match c with
      | none => false
      | some s => decide (pyStripS s ≠ "")))

/-- `pd.DataFrame(rows, columns=headers)`: the frame is column-wise; rows
shorter than the header row are padded with NaN (see `mkDFRowsOk` for the
width condition under which pandas accepts the data). -/
def mkDFRows (headers : List String) (rows : List (List (Option String))) : DF :=
  ⟨headers.enum.map (fun jh =>
    (jh.2, rows.map (fun r => cellVal (r.getD jh.1 none))))⟩

def maxRowWidth (rows : List (List α)) : Nat :=
  rows.foldl (fun m r => max m r.length) 0

/-- pandas accepts `pd.DataFrame(rows, columns=headers)` when the widest
row matches the header count (shorter rows are NaN-padded); otherwise it
raises, which the caller's `except` turns into skipping the table. -/
def mkDFRowsOk (ncols : Nat) (rows : List (List α)) : Bool :=
  rows.isEmpty || decide (maxRowWidth rows = ncols)

/-- Inner part of the per-table loop body, after blank-row filtering:
a single surviving row becomes data under synthesized headers; multiple
rows promote the first to a sanitized header row (src/core/extractor.py
110-127). -/
def processTableRows (p ti : Nat) (firstRow : List (Option String))
    (restRows : List (List (Option String))) : Option DF :=
  if restRows = [] then
    let headers := (List.range firstRow.length).map
      (fun j => "Column_" ++ natRepr (j + 1))
    some (addMeta p ti (mkDFRows headers [firstRow]))
  else
    let cleaned := clean_column_names firstRow
    if mkDFRowsOk cleaned.length restRows then
      some (addMeta p ti (mkDFRows cleaned restRows))
    else none

/-- Loop body for one raw table of one page (src/core/extractor.py
101-141); `ti` is the 1-based table index.  `none` means nothing was
appended (empty table, fully blank table, or pandas rejected the data and
the per-table `except` handler skipped it). -/
def processTable (p : Nat) (ti : Nat)
    (table : List (List (Option String))) : Option DF :=
  if table = [] then none
  else
    match filterTableRows table with
    | [] => none
    | firstRow :: restRows => processTableRows p ti firstRow restRows

/-- Per-page body of `extract_text_tables`: tables first; if none was
appended, fall back to the page's text lines (lines 143-162). -/
def pageTablesOrText (p : Nat) (pg : PdfPage) : List DF :=
  let dfs := (enum1 pg.tables).filterMap (fun tt => processTable p tt.1 tt.2)
  if dfs ≠ [] then dfs
  else if pg.text ≠ "" ∧ pyStripS pg.text ≠ "" then
    let lines := pyLines pg.text
    if lines ≠ [] then
      [addMeta p 1 ⟨[("Text", lines.map Val.str)]⟩]
    else []
  else []

/-- All values of the `Page` columns (guarded as in
`if 'Page' in table.columns`); only membership is ever used, matching the
Python set semantics. -/
def pageVals (l : List DF) : List Val :=
  (l.map (fun t => if t.hasCol "Page" then t.col "Page" else [])).flatten

/-- `PDFExtractor.extract_text_tables` (src/core/extractor.py 75-200),
including its own completion pass (lines 185-198).  The whole-file
`except` fallback (164-183) is unreachable in this exception-free model:
per-table errors are already handled inside `processTable`. -/
def extract_text_tables (doc : Document) : List DF :=
  let tables := ((enum1 doc).map (fun pp => pageTablesOrText pp.1 pp.2)).flatten
  if tables.length < doc.length then
    tables ++ ((List.range' 1 doc.length).filter
      (fun p => !decide (Val.nat p ∈ pageVals tables))).map
      (fun p => ⟨[("Page", [Val.nat p]), ("Table_Index", [Val.nat 1]),
                  ("Text", [Val.str "[No extractable content]"])]⟩)
  else tables

/-- Python `line.split('  ')` (split on each occurrence of two spaces). -/
def splitTwoSpAux : List Char → List Char → List (List Char)
  | [], acc => [acc.reverse]
  | ' ' :: ' ' :: rest, acc => acc.reverse :: splitTwoSpAux rest []
  | c :: rest, acc => splitTwoSpAux rest (c :: acc)

def pySplitTwoSp (s : String) : List String :=
  (splitTwoSpAux s.data []).map String.mk

/-- `PDFExtractor._parse_ocr_text` (src/core/extractor.py 310-331). -/
def parse_ocr_text (lines : List String) : Option (List (List String)) :=
  if lines = [] then none
  else
    let parsed := lines.filterMap (fun line =>
      let colsOf := ((pySplitTwoSp line).map pyStripS).filter
        (fun c => decide (c ≠ ""))
      if colsOf.length > 1 then some colsOf else none)
    if parsed = [] then none else some parsed

/-- Loop of `PDFExtractor.extract_from_images` (src/core/extractor.py
202-249): one image per page; a pandas error aborts the whole loop (the
`except` wraps the `for`), returning the tables collected so far. -/
def extract_from_images_go : List (Nat × PdfPage) → List DF
  | [] => []
  | (p, pg) :: rest =>
    let lines := pyLines pg.ocrText
    if lines = [] then extract_from_images_go rest
    else
      match parse_ocr_text lines with
      | some [] => extract_from_images_go rest
      | some (headers :: dataRows) =>
        let cleaned := clean_column_names (headers.map some)
        if mkDFRowsOk cleaned.length dataRows then
          addMeta p 1 (mkDFRows cleaned (dataRows.map (fun r => r.map some))) ::
            extract_from_images_go rest
        else []
      | none =>
        addMeta p 1 ⟨[("Text", lines.map Val.str)]⟩ :: extract_from_images_go rest

def extract_from_images (doc : Document) : List DF :=
  extract_from_images_go (enum1 doc)

/-- Per-page body of `extract_all_text_comprehensive`
(src/core/extractor.py 493-569): a Text_Line frame when the page has
non-blank text, a Word frame when it has words, and a No_Text_Content
marker when it has neither text nor words.  A page whose text is non-empty
but all-whitespace gets none of the three. -/
def comprehensivePage (p : Nat) (pg : PdfPage) : List DF :=
  (if pg.text ≠ "" ∧ pyStripS pg.text ≠ "" then
    (let lines := pyLines pg.text
     if lines ≠ [] then
      [DF.mk [("Page", List.replicate lines.length (Val.nat p)),
        ("Content_Type", List.replicate lines.length (Val.str "Text_Line")),
        ("Text", lines.map Val.str),
        ("Line_Number", (List.range' 1 lines.length).map Val.nat),
        ("Extraction_Method",
          List.replicate lines.length (Val.str "pdfplumber_text"))]]
     else [])
   else []) ++
  (if pg.words ≠ [] then
    [DF.mk [("Page", List.replicate pg.words.length (Val.nat p)),
      ("Content_Type", List.replicate pg.words.length (Val.str "Word")),
      ("Text", pg.words.map (fun w => Val.str w.text)),
      ("X", pg.words.map (fun w => Val.nat w.x0)),
      ("Y", pg.words.map (fun w => Val.nat w.top)),
      ("Width", pg.words.map (fun w => Val.nat w.width)),
      ("Height", pg.words.map (fun w => Val.nat w.height)),
      ("Line_Number", (List.range' 1 pg.words.length).map Val.nat),
      ("Extraction_Method",
        List.replicate pg.words.length (Val.str "pdfplumber_words"))]]
   else []) ++
  (if pg.text = "" ∧ pg.words = [] then
    [DF.mk [("Page", [Val.nat p]),
      ("Content_Type", [Val.str "No_Text_Content"]),
      ("Text", [Val.str "[No text content found on this page]"]),
      ("Line_Number", [Val.nat 1]),
      ("Extraction_Method", [Val.str "pdfplumber_empty"])]]
   else [])

def extract_all_text_comprehensive (doc : Document) : List DF :=
  ((enum1 doc).map (fun pp => comprehensivePage pp.1 pp.2)).flatten

/-- Per-page body of `extract_remaining_content`
(src/core/extractor.py 571-630). -/
def remainingPage (p : Nat) (pg : PdfPage) : List DF :=
  (if pg.images ≠ [] then
    [DF.mk [("Page", List.replicate pg.images.length (Val.nat p)),
      ("Content_Type", List.replicate pg.images.length (Val.str "Image")),
      ("Text", (enum1 pg.images).map (fun ii => Val.str
        ("[Image " ++ natRepr ii.1 ++ ": " ++ natRepr ii.2.width ++ "x" ++
          natRepr ii.2.height ++ "]"))),
      ("X", pg.images.map (fun im => Val.nat im.x0)),
      ("Y", pg.images.map (fun im => Val.nat im.top)),
      ("Width", pg.images.map (fun im => Val.nat im.width)),
      ("Height", pg.images.map (fun im => Val.nat im.height)),
      ("Extraction_Method",
        List.replicate pg.images.length (Val.str "pdfplumber_images"))]]
   else []) ++
  (if pg.annots ≠ [] then
    [DF.mk [("Page", List.replicate pg.annots.length (Val.nat p)),
      ("Content_Type", List.replicate pg.annots.length (Val.str "Annotation")),
      ("Text", (enum1 pg.annots).map (fun aa => Val.str
        ("[Annotation " ++ natRepr aa.1 ++ ": " ++ aa.2.subtype ++ "]"))),
      ("X", pg.annots.map (fun an => Val.nat an.x0)),
      ("Y", pg.annots.map (fun an => Val.nat an.top)),
      ("Extraction_Method",
        List.replicate pg.annots.length (Val.str "pdfplumber_annotations"))]]
   else [])

def extract_remaining_content (doc : Document) : List DF :=
  ((enum1 doc).map (fun pp => remainingPage pp.1 pp.2)).flatten

/-- Python `text[:500]`. -/
def pyTakeS (s : String) (n : Nat) : String := String.mk (s.data.take n)

/-- The `content_data` rows of `extract_page_content`
(src/core/extractor.py 654-678). -/
def pageContentRows (pg : PdfPage) : List (String × String × String) :=
  (if pg.text ≠ "" then
    [("Remaining_Text",
      if pg.text.data.length > 500 then pyTakeS pg.text 500 ++ "..."
      else pg.text,
      "page_specific_text")]
   else []) ++
  (if pg.words ≠ [] then
    [("Remaining_Words",
      "[Found " ++ natRepr pg.words.length ++ " words]",
      "page_specific_words")]
   else []) ++
  (if pg.images ≠ [] then
    [("Remaining_Images",
      "[Found " ++ natRepr pg.images.length ++ " images]",
      "page_specific_images")]
   else [])

/-- The frame returned by `extract_page_content` for one page, or `None`
when the page has no text, words or images. -/
def pageContentFrame (p : Nat) (pg : PdfPage) : Option DF :=
  if pg.text ≠ "" ∨ pg.words ≠ [] ∨ pg.images ≠ [] then
    some ⟨[("Page", List.replicate (pageContentRows pg).length (Val.nat p)),
           ("Content_Type", (pageContentRows pg).map (fun r => Val.str r.1)),
           ("Text", (pageContentRows pg).map (fun r => Val.str r.2.1)),
           ("Extraction_Method", (pageContentRows pg).map (fun r => Val.str r.2.2))]⟩
  else none

/-- `PDFExtractor.extract_page_content` (src/core/extractor.py 632-686):
any remaining text/words/images of one specific page, or `None`. -/
def extract_page_content (doc : Document) (p : Nat) : Option DF :=
  if p ≤ doc.length then
    match doc.get? (p - 1) with
    | none => none
    | some pg => pageContentFrame p pg
  else none

/-- First-occurrence deduplication; models both `pandas.unique` (which is
order-preserving) and, up to iteration order, the Python `set(...)` whose
iteration order CPython leaves unspecified. -/
def dedupFirstAux [DecidableEq α] : List α → List α → List α
  | [], _ => []
  | a :: rest, seen =>
    if a ∈ seen then dedupFirstAux rest seen
    else a :: dedupFirstAux rest (a :: seen)

def dedupFirst [DecidableEq α] (l : List α) : List α := dedupFirstAux l []

def joinComma : List String → String
  | [] => ""
  | [x] => x
  | x :: xs => x ++ ", " ++ joinComma xs

/-- The tables containing a given page number
(`page_num in t['Page'].values`, guarded by `'Page' in t.columns`). -/
def pageTablesOf (ts : List DF) (p : Nat) : List DF :=
  ts.filter (fun t => t.hasCol "Page" && decide (Val.nat p ∈ t.col "Page"))

def pageItemCount (ts : List DF) (p : Nat) : Nat :=
  ((pageTablesOf ts p).map DF.nrows).sum

/-- Per-table `unique()` of the Content_Type column, concatenated.  Only
string values are collected: on a table carrying its own Content_Type
column with a `None` cell, CPython would raise inside `", ".join(...)`;
the model totalizes that corner by skipping non-strings. -/
def contentTypesOf (ts : List DF) : List String :=
  (ts.map (fun t =>
    if t.hasCol "Content_Type" then
      (dedupFirst (t.col "Content_Type")).filterMap (fun v =>
        match v with
        | Val.str s => some s
        | _ => none)
    else [])).flatten

def pageTypesJoin (ts : List DF) (p : Nat) : String :=
  joinComma (dedupFirst (contentTypesOf (pageTablesOf ts p)))

/-- The summary frame `pd.DataFrame(summary_data)` of `consolidate_tables`
(src/core/extractor.py 702-733), written column-wise; for `total = 0` the
row list is empty and `pd.DataFrame([])` has no columns. -/
def summaryDF (ts : List DF) (total : Nat) : DF :=
  if total = 0 then ⟨[]⟩
  else
    let pages := List.range' 1 total
    ⟨[("Page", pages.map Val.nat),
      ("Content_Type", pages.map (fun _ => Val.str "Page_Summary")),
      ("Text", pages.map (fun p => Val.str
        (if pageTablesOf ts p ≠ [] then
          "Page " ++ natRepr p ++ ": " ++ natRepr (pageItemCount ts p) ++
            " total items, Content types: " ++ pageTypesJoin ts p
         else "Page " ++ natRepr p ++ ": No content extracted"))),
      ("Total_Items", pages.map (fun p => Val.nat (pageItemCount ts p))),
      ("Content_Types", pages.map (fun p => Val.str
        (if pageTablesOf ts p ≠ [] then pageTypesJoin ts p else "None"))),
      ("Extraction_Method",
        pages.map (fun _ => Val.str "consolidated_summary"))]⟩

/-- `PDFExtractor.consolidate_tables` (src/core/extractor.py 688-738):
empty input stays empty; otherwise the summary frame is prepended and the
original tables follow in their given order. -/
def consolidate_tables (all_tables : List DF) (total : Nat) : List DF :=
  if all_tables = [] then []
  else summaryDF all_tables total :: all_tables

/-- `self.is_text_based(pdf_path)` inside `extract`, on the same document
and without exceptions. -/
def is_text_based_doc (doc : Document) : Bool :=
  is_text_based_run (doc.map (fun pg => PageTextRes.ok pg.text))

/-- Steps 1-3 of `PDFExtractor.extract` (src/core/extractor.py 362-386):
type-dependent table extraction, comprehensive text, remaining content. -/
def extract_pre (doc : Document) : List DF :=
  (if is_text_based_doc doc then extract_text_tables doc
   else extract_from_images doc) ++
  extract_all_text_comprehensive doc ++ extract_remaining_content doc

/-- The pages found missing by step 4 of `extract` (lines 388-395);
Python iterates the missing set — here in ascending page order (CPython
set order for small ints coincides, but no claim depends on the order). -/
def missing_pages_of (doc : Document) : List Nat :=
  (List.range' 1 doc.length).filter
    (fun p => !decide (Val.nat p ∈ pageVals (extract_pre doc)))

/-- Step 4 of `extract` (lines 395-412): add per-page remaining content or
an Empty_Page placeholder for every missing page. -/
def reconcile (doc : Document) : List DF :=
  extract_pre doc ++ (missing_pages_of doc).map (fun p =>
    match extract_page_content doc p with
    | some df => df
    | none => ⟨[("Page", [Val.nat p]),
                ("Content_Type", [Val.str "Empty_Page"]),
                ("Text", [Val.str ("[Page " ++ natRepr p ++
                  " - No extractable content found]")]),
                ("Extraction_Status", [Val.str "No_Content"])]⟩)

/-- The results dict of `PDFExtractor.extract` (lines 425-438), minus the
path/timestamp bookkeeping. -/
structure ExtractionResult where
  tables : List DF
  total_tables : Nat
  total_rows : Nat
  total_pages : Nat
  extracted_pages : Nat
  missing_pages : Nat
  extraction_method : String
  is_text : Bool
deriving DecidableEq

/-- `completeness_score` (line 435):
`len(final_extracted_pages)/total_pages*100 if total_pages > 0 else 100`,
with the float expression modelled exactly over the rationals. -/
def completeness_score (r : ExtractionResult) : ℚ :=
  if r.total_pages > 0 then (r.extracted_pages : ℚ) / r.total_pages * 100
  else 100

/-- `PDFExtractor.extract` (src/core/extractor.py 333-451). -/
def extract (doc : Document) : ExtractionResult :=
  let consolidated := consolidate_tables (reconcile doc) doc.length
  { tables := consolidated
    total_tables := consolidated.length
    total_rows := (consolidated.map DF.nrows).sum
    total_pages := doc.length
    extracted_pages := (dedupFirst (pageVals consolidated)).length
    missing_pages := 0
    extraction_method := if is_text_based_doc doc then "pdfplumber" else "ocr"
    is_text := is_text_based_doc doc }

/-! ### Claim C1: page-number coverage of the final result -/

lemma cellVal_ne_nat (c : Option String) (q : Nat) : cellVal c ≠ Val.nat q := by
  cases c <;> simp [cellVal]

lemma col_mem_entry (d : DF) (name : String) (v : Val) (h : v ∈ d.col name) :
    ∃ vs, (name, vs) ∈ d.cols ∧ v ∈ vs := by
  unfold DF.col at h
  cases hf : d.cols.find? (fun c => c.fst = name) with
  | none => rw [hf] at h; simp at h
  | some c =>
    rw [hf] at h
    have hpred := List.find?_some hf
    have hmem := List.mem_of_find?_eq_some hf
    cases c with
    | mk a vs =>
      have ha : a = name := by simpa using hpred
      subst ha
      exact ⟨vs, hmem, h⟩

lemma hasCol_of_mem_col (d : DF) (name : String) (v : Val) (h : v ∈ d.col name) :
    d.hasCol name = true := by
  unfold DF.col at h
  cases hf : d.cols.find? (fun c => c.fst = name) with
  | none => rw [hf] at h; simp at h
  | some c =>
    have hpred := List.find?_some hf
    have hmem := List.mem_of_find?_eq_some hf
    cases c with
    | mk a vs =>
      have ha : a = name := by simpa using hpred
      unfold DF.hasCol DF.columns
      simp only [decide_eq_true_eq]
      exact List.mem_map.mpr ⟨(a, vs), hmem, ha⟩

lemma mem_pageVals_elim (l : List DF) (v : Val) (h : v ∈ pageVals l) :
    ∃ t ∈ l, v ∈ t.col "Page" := by
  unfold pageVals at h
  obtain ⟨piece, hpiece, hv⟩ := List.mem_flatten.mp h
  obtain ⟨t, ht, rfl⟩ := List.mem_map.mp hpiece
  by_cases hc : t.hasCol "Page" = true
  · rw [if_pos hc] at hv
    exact ⟨t, ht, hv⟩
  · rw [if_neg hc] at hv
    simp at hv

lemma mem_pageVals_intro (l : List DF) (t : DF) (ht : t ∈ l) (v : Val)
    (hv : v ∈ t.col "Page") : v ∈ pageVals l := by
  unfold pageVals
  refine List.mem_flatten.mpr ⟨if t.hasCol "Page" then t.col "Page" else [], ?_, ?_⟩
  · exact List.mem_map.mpr ⟨t, ht, rfl⟩
  · rw [if_pos (hasCol_of_mem_col t "Page" v hv)]
    exact hv

lemma pageVals_append (a b : List DF) :
    pageVals (a ++ b) = pageVals a ++ pageVals b := by
  unfold pageVals
  rw [List.map_append, List.flatten_append]

/-- Every `("Page", vs)` entry of the frame has its `Val.nat` members in
`[1, n]`. -/
def PageEntriesBound (n : Nat) (d : DF) : Prop :=
  ∀ vs, ("Page", vs) ∈ d.cols → ∀ q : Nat, Val.nat q ∈ vs → 1 ≤ q ∧ q ≤ n

lemma pageBound_of_entries (n : Nat) (d : DF) (h : PageEntriesBound n d)
    (q : Nat) (hq : Val.nat q ∈ d.col "Page") : 1 ≤ q ∧ q ≤ n := by
  obtain ⟨vs, hvs, hmem⟩ := col_mem_entry d "Page" _ hq
  exact h vs hvs q hmem

lemma mem_insertAt (a x : α) :
    ∀ (n : Nat) (l : List α), x ∈ insertAt a n l → x = a ∨ x ∈ l := by
  intro n
  induction n with
  | zero =>
    intro l h
    rw [insertAt] at h
    rcases List.mem_cons.mp h with rfl | h2
    · exact Or.inl rfl
    · exact Or.inr h2
  | succ m ih =>
    intro l h
    cases l with
    | nil =>
      rw [insertAt] at h
      simp at h
      exact Or.inl h
    | cons b t =>
      rw [insertAt] at h
      rcases List.mem_cons.mp h with rfl | h2
      · exact Or.inr (by simp)
      · rcases ih t h2 with h3 | h3
        · exact Or.inl h3
        · exact Or.inr (by simp [h3])

lemma addMeta_entries (p ti : Nat) (d : DF) (e : String × List Val)
    (h : e ∈ (addMeta p ti d).cols) :
    (∃ m, e = ("Page", List.replicate m (Val.nat p))) ∨
    (∃ m, e = ("Table_Index", List.replicate m (Val.nat ti))) ∨ e ∈ d.cols := by
  unfold addMeta at h
  set d1 := if d.hasCol "Page" then d else d.insertScalar 0 "Page" (Val.nat p) with hd1
  have step1 : e ∈ d1.cols → (∃ m, e = ("Page", List.replicate m (Val.nat p))) ∨
      e ∈ d.cols := by
    intro h1
    rw [hd1] at h1
    by_cases hc : d.hasCol "Page" = true
    · rw [if_pos hc] at h1; exact Or.inr h1
    · rw [if_neg hc] at h1
      unfold DF.insertScalar at h1
      rcases mem_insertAt _ e 0 d.cols h1 with h2 | h2
      · exact Or.inl ⟨d.nrows, h2⟩
      · exact Or.inr h2
  by_cases hc2 : d1.hasCol "Table_Index" = true
  · rw [if_pos hc2] at h
    rcases step1 h with h2 | h2
    · exact Or.inl h2
    · exact Or.inr (Or.inr h2)
  · rw [if_neg hc2] at h
    unfold DF.insertScalar at h
    rcases mem_insertAt _ e 1 d1.cols h with h2 | h2
    · exact Or.inr (Or.inl ⟨d1.nrows, h2⟩)
    · rcases step1 h2 with h3 | h3
      · exact Or.inl h3
      · exact Or.inr (Or.inr h3)

lemma pageEntriesBound_addMeta (n p ti : Nat) (d : DF) (hp : 1 ≤ p ∧ p ≤ n)
    (hd : PageEntriesBound n d) : PageEntriesBound n (addMeta p ti d) := by
  intro vs hvs q hq
  rcases addMeta_entries p ti d _ hvs with ⟨m, he⟩ | ⟨m, he⟩ | he
  · have hv : vs = List.replicate m (Val.nat p) := by
      injection he with h1 h2
    rw [hv] at hq
    have := List.eq_of_mem_replicate hq
    have hqp : q = p := by injection this
    rw [hqp]
    exact hp
  · exfalso
    injection he with h1 h2
    exact absurd h1 (by decide)
  · exact hd vs he q hq

lemma mkDFRows_entries_no_nat (hs : List String)
    (rows : List (List (Option String))) (e : String × List Val)
    (h : e ∈ (mkDFRows hs rows).cols) (q : Nat) : Val.nat q ∉ e.snd := by
  unfold mkDFRows at h
  obtain ⟨jh, _, rfl⟩ := List.mem_map.mp h
  intro hcon
  simp only [] at hcon
  obtain ⟨r, _, hr⟩ := List.mem_map.mp hcon
  exact cellVal_ne_nat _ q hr

lemma pageEntriesBound_mkDFRows (n : Nat) (hs : List String)
    (rows : List (List (Option String))) :
    PageEntriesBound n (mkDFRows hs rows) := by
  intro vs hvs q hq
  exact absurd hq (mkDFRows_entries_no_nat hs rows _ hvs q)

lemma pageEntriesBound_textFrame (n : Nat) (vals : List Val) :
    PageEntriesBound n (DF.mk [("Text", vals)]) := by
  intro vs hvs q hq
  simp only [List.mem_singleton] at hvs
  injection hvs with h1 h2
  exact absurd h1 (by decide)

lemma enum1_bound (l : List α) (p : Nat) (a : α) (h : (p, a) ∈ enum1 l) :
    1 ≤ p ∧ p ≤ l.length := by
  unfold enum1 at h
  have := (List.of_mem_zip h).1
  have h2 := List.mem_range'_1.mp this
  omega

lemma pageEntriesBound_processTable (n p ti : Nat)
    (table : List (List (Option String))) (df : DF) (hp : 1 ≤ p ∧ p ≤ n)
    (h : processTable p ti table = some df) : PageEntriesBound n df := by
  unfold processTable at h
  by_cases ht : table = []
  · rw [if_pos ht] at h; cases h
  · rw [if_neg ht] at h
    cases hf : filterTableRows table with
    | nil => rw [hf] at h; cases h
    | cons firstRow restRows =>
      rw [hf] at h
      have h2 : processTableRows p ti firstRow restRows = some df := h
      unfold processTableRows at h2
      by_cases hr : restRows = []
      · rw [if_pos hr] at h2
        injection h2 with h3
        rw [← h3]
        exact pageEntriesBound_addMeta n p ti _ hp (pageEntriesBound_mkDFRows n _ _)
      · rw [if_neg hr] at h2
        by_cases hok : mkDFRowsOk (clean_column_names firstRow).length restRows = true
        · rw [if_pos hok] at h2
          injection h2 with h3
          rw [← h3]
          exact pageEntriesBound_addMeta n p ti _ hp (pageEntriesBound_mkDFRows n _ _)
        · rw [if_neg hok] at h2; cases h2

lemma pageEntriesBound_pageTablesOrText (n p : Nat) (pg : PdfPage)
    (hp : 1 ≤ p ∧ p ≤ n) :
    ∀ t ∈ pageTablesOrText p pg, PageEntriesBound n t := by
  intro t ht
  unfold pageTablesOrText at ht
  by_cases hdfs : (enum1 pg.tables).filterMap (fun tt => processTable p tt.1 tt.2) ≠ []
  · rw [if_pos hdfs] at ht
    obtain ⟨tt, _, hpt⟩ := List.mem_filterMap.mp ht
    exact pageEntriesBound_processTable n p tt.1 tt.2 t hp hpt
  · rw [if_neg hdfs] at ht
    by_cases htx : pg.text ≠ "" ∧ pyStripS pg.text ≠ ""
    · rw [if_pos htx] at ht
      by_cases hl : pyLines pg.text ≠ []
      · rw [if_pos hl] at ht
        simp only [List.mem_singleton] at ht
        rw [ht]
        exact pageEntriesBound_addMeta n p 1 _ hp (pageEntriesBound_textFrame n _)
      · rw [if_neg hl] at ht; simp at ht
    · rw [if_neg htx] at ht; simp at ht

lemma pageEntriesBound_replicate_frame (n p : Nat) (hp : 1 ≤ p ∧ p ≤ n)
    (cols : List (String × List Val))
    (hcols : ∀ vs, ("Page", vs) ∈ cols →
      (∃ m, vs = List.replicate m (Val.nat p)) ∨ vs = [Val.nat p]) :
    PageEntriesBound n (DF.mk cols) := by
  intro vs hvs q hq
  rcases hcols vs hvs with ⟨m, hm⟩ | hm
  · rw [hm] at hq
    have := List.eq_of_mem_replicate hq
    have hqp : q = p := by injection this
    omega
  · rw [hm] at hq
    simp only [List.mem_singleton] at hq
    have hqp : q = p := by injection hq
    omega

lemma pageEntriesBound_extract_text_tables (doc : Document) :
    ∀ t ∈ extract_text_tables doc, PageEntriesBound doc.length t := by
  intro t ht
  unfold extract_text_tables at ht
  have base : ∀ u ∈ ((enum1 doc).map (fun pp => pageTablesOrText pp.1 pp.2)).flatten,
      PageEntriesBound doc.length u := by
    intro u hu
    obtain ⟨piece, hpiece, hu2⟩ := List.mem_flatten.mp hu
    obtain ⟨pp, hpp, rfl⟩ := List.mem_map.mp hpiece
    exact pageEntriesBound_pageTablesOrText doc.length pp.1 pp.2
      (enum1_bound doc pp.1 pp.2 (by cases pp; exact hpp)) u hu2
  by_cases hlt : ((enum1 doc).map (fun pp => pageTablesOrText pp.1 pp.2)).flatten.length
      < doc.length
  · rw [if_pos hlt] at ht
    rcases List.mem_append.mp ht with h2 | h2
    · exact base t h2
    · obtain ⟨p, hp, rfl⟩ := List.mem_map.mp h2
      have hpr := List.mem_range'_1.mp (List.mem_filter.mp hp).1
      refine pageEntriesBound_replicate_frame doc.length p (by omega) _ ?_
      intro vs hvs
      simp only [List.mem_cons, List.not_mem_nil, or_false] at hvs
      rcases hvs with h3 | h3 | h3 <;>
        first
          | (right; exact congrArg Prod.snd h3)
          | (exfalso; have hf := congrArg Prod.fst h3; simp at hf)
  · rw [if_neg hlt] at ht
    exact base t ht

lemma pageEntriesBound_efi_go (n : Nat) :
    ∀ l : List (Nat × PdfPage), (∀ pp ∈ l, 1 ≤ pp.1 ∧ pp.1 ≤ n) →
      ∀ t ∈ extract_from_images_go l, PageEntriesBound n t := by
  intro l
  induction l with
  | nil => intro _ t ht; simp [extract_from_images_go] at ht
  | cons hd rest ih =>
    intro hb t ht
    cases hd with
    | mk p pg =>
      have hp : 1 ≤ p ∧ p ≤ n := hb (p, pg) (by simp)
      have hbr : ∀ pp ∈ rest, 1 ≤ pp.1 ∧ pp.1 ≤ n := fun pp hpp => hb pp (by simp [hpp])
      rw [extract_from_images_go] at ht
      by_cases hl : pyLines pg.ocrText = []
      · rw [if_pos hl] at ht
        exact ih hbr t ht
      · rw [if_neg hl] at ht
        cases hdata : parse_ocr_text (pyLines pg.ocrText) with
        | none =>
          rw [hdata] at ht
          rcases List.mem_cons.mp ht with rfl | h2
          · exact pageEntriesBound_addMeta n p 1 _ hp (pageEntriesBound_textFrame n _)
          · exact ih hbr t h2
        | some data =>
          rw [hdata] at ht
          cases data with
          | nil =>
            have ht2 : t ∈ extract_from_images_go rest := ht
            exact ih hbr t ht2
          | cons headers dataRows =>
            have ht2 : t ∈ (if mkDFRowsOk
                (clean_column_names (headers.map some)).length dataRows = true then
                addMeta p 1 (mkDFRows (clean_column_names (headers.map some))
                  (dataRows.map (fun r => r.map some))) ::
                  extract_from_images_go rest
              else []) := ht
            by_cases hok : mkDFRowsOk (clean_column_names (headers.map some)).length
                dataRows = true
            · rw [if_pos hok] at ht2
              rcases List.mem_cons.mp ht2 with rfl | h2
              · exact pageEntriesBound_addMeta n p 1 _ hp
                  (pageEntriesBound_mkDFRows n _ _)
              · exact ih hbr t h2
            · rw [if_neg hok] at ht2
              simp at ht2

lemma pageEntriesBound_comprehensivePage (n p : Nat) (pg : PdfPage)
    (hp : 1 ≤ p ∧ p ≤ n) :
    ∀ t ∈ comprehensivePage p pg, PageEntriesBound n t := by
  intro t ht
  unfold comprehensivePage at ht
  rcases List.mem_append.mp ht with h1 | h1
  · rcases List.mem_append.mp h1 with h2 | h2
    · by_cases hc : pg.text ≠ "" ∧ pyStripS pg.text ≠ ""
      · rw [if_pos hc] at h2
        by_cases hl : pyLines pg.text ≠ []
        · rw [if_pos hl] at h2
          simp only [List.mem_singleton] at h2
          rw [h2]
          refine pageEntriesBound_replicate_frame n p hp _ ?_
          intro vs hvs
          simp only [List.mem_cons, List.not_mem_nil, or_false] at hvs
          rcases hvs with h3 | h3 | h3 | h3 | h3 <;>
            first
              | (left; exact ⟨_, congrArg Prod.snd h3⟩)
              | (exfalso; have hf := congrArg Prod.fst h3; simp at hf)
        · rw [if_neg hl] at h2; simp at h2
      · rw [if_neg hc] at h2; simp at h2
    · by_cases hw : pg.words ≠ []
      · rw [if_pos hw] at h2
        simp only [List.mem_singleton] at h2
        rw [h2]
        refine pageEntriesBound_replicate_frame n p hp _ ?_
        intro vs hvs
        simp only [List.mem_cons, List.not_mem_nil, or_false] at hvs
        rcases hvs with h3 | h3 | h3 | h3 | h3 | h3 | h3 | h3 | h3 <;>
          first
            | (left; exact ⟨_, congrArg Prod.snd h3⟩)
            | (exfalso; have hf := congrArg Prod.fst h3; simp at hf)
      · rw [if_neg hw] at h2; simp at h2
  · by_cases he : pg.text = "" ∧ pg.words = []
    · rw [if_pos he] at h1
      simp only [List.mem_singleton] at h1
      rw [h1]
      refine pageEntriesBound_replicate_frame n p hp _ ?_
      intro vs hvs
      simp only [List.mem_cons, List.not_mem_nil, or_false] at hvs
      rcases hvs with h3 | h3 | h3 | h3 | h3 <;>
        first
          | (right; exact congrArg Prod.snd h3)
          | (exfalso; have hf := congrArg Prod.fst h3; simp at hf)
    · rw [if_neg he] at h1; simp at h1

lemma pageEntriesBound_remainingPage (n p : Nat) (pg : PdfPage)
    (hp : 1 ≤ p ∧ p ≤ n) :
    ∀ t ∈ remainingPage p pg, PageEntriesBound n t := by
  intro t ht
  unfold remainingPage at ht
  rcases List.mem_append.mp ht with h1 | h1
  · by_cases hi : pg.images ≠ []
    · rw [if_pos hi] at h1
      simp only [List.mem_singleton] at h1
      rw [h1]
      refine pageEntriesBound_replicate_frame n p hp _ ?_
      intro vs hvs
      simp only [List.mem_cons, List.not_mem_nil, or_false] at hvs
      rcases hvs with h3 | h3 | h3 | h3 | h3 | h3 | h3 | h3 <;>
        first
          | (left; exact ⟨_, congrArg Prod.snd h3⟩)
          | (exfalso; have hf := congrArg Prod.fst h3; simp at hf)
    · rw [if_neg hi] at h1; simp at h1
  · by_cases ha : pg.annots ≠ []
    · rw [if_pos ha] at h1
      simp only [List.mem_singleton] at h1
      rw [h1]
      refine pageEntriesBound_replicate_frame n p hp _ ?_
      intro vs hvs
      simp only [List.mem_cons, List.not_mem_nil, or_false] at hvs
      rcases hvs with h3 | h3 | h3 | h3 | h3 | h3 <;>
        first
          | (left; exact ⟨_, congrArg Prod.snd h3⟩)
          | (exfalso; have hf := congrArg Prod.fst h3; simp at hf)
    · rw [if_neg ha] at h1; simp at h1

lemma pageEntriesBound_flatten_stage (n : Nat) (doc : Document)
    (f : Nat → PdfPage → List DF)
    (hf : ∀ p pg, 1 ≤ p ∧ p ≤ n → ∀ t ∈ f p pg, PageEntriesBound n t)
    (hn : doc.length ≤ n) :
    ∀ t ∈ ((enum1 doc).map (fun pp => f pp.1 pp.2)).flatten, PageEntriesBound n t := by
  intro t ht
  obtain ⟨piece, hpiece, ht2⟩ := List.mem_flatten.mp ht
  obtain ⟨pp, hpp, rfl⟩ := List.mem_map.mp hpiece
  have hb := enum1_bound doc pp.1 pp.2 (by cases pp; exact hpp)
  exact hf pp.1 pp.2 ⟨hb.1, le_trans hb.2 hn⟩ t ht2

lemma pageEntriesBound_extract_pre (doc : Document) :
    ∀ t ∈ extract_pre doc, PageEntriesBound doc.length t := by
  intro t ht
  unfold extract_pre at ht
  rcases List.mem_append.mp ht with h1 | h1
  · rcases List.mem_append.mp h1 with h2 | h2
    · by_cases hit : is_text_based_doc doc = true
      · rw [if_pos hit] at h2
        exact pageEntriesBound_extract_text_tables doc t h2
      · rw [if_neg hit] at h2
        refine pageEntriesBound_efi_go doc.length (enum1 doc) ?_ t h2
        intro pp hpp
        exact enum1_bound doc pp.1 pp.2 (by cases pp; exact hpp)
    · exact pageEntriesBound_flatten_stage doc.length doc comprehensivePage
        (fun p pg hp => pageEntriesBound_comprehensivePage doc.length p pg hp) le_rfl t h2
  · exact pageEntriesBound_flatten_stage doc.length doc remainingPage
      (fun p pg hp => pageEntriesBound_remainingPage doc.length p pg hp) le_rfl t h1

lemma pageEntriesBound_extract_page_content (n p : Nat) (doc : Document)
    (hp : 1 ≤ p ∧ p ≤ n) (df : DF) (h : extract_page_content doc p = some df) :
    PageEntriesBound n df := by
  unfold extract_page_content at h
  by_cases hle : p ≤ doc.length
  · rw [if_pos hle] at h
    cases hg : doc.get? (p - 1) with
    | none => rw [hg] at h; cases h
    | some pg =>
      rw [hg] at h
      have h1 : pageContentFrame p pg = some df := h
      unfold pageContentFrame at h1
      by_cases hc : pg.text ≠ "" ∨ pg.words ≠ [] ∨ pg.images ≠ []
      · rw [if_pos hc] at h1
        injection h1 with h2
        rw [← h2]
        refine pageEntriesBound_replicate_frame n p hp _ ?_
        intro vs hvs
        simp only [List.mem_cons, List.not_mem_nil, or_false] at hvs
        rcases hvs with h3 | h3 | h3 | h3 <;>
          first
            | (left; exact ⟨_, congrArg Prod.snd h3⟩)
            | (exfalso; have hf := congrArg Prod.fst h3; simp at hf)
      · rw [if_neg hc] at h1; cases h1
  · rw [if_neg hle] at h; cases h

lemma pageEntriesBound_reconcile (doc : Document) :
    ∀ t ∈ reconcile doc, PageEntriesBound doc.length t := by
  intro t ht
  unfold reconcile at ht
  rcases List.mem_append.mp ht with h1 | h1
  · exact pageEntriesBound_extract_pre doc t h1
  · obtain ⟨p, hp, rfl⟩ := List.mem_map.mp h1
    have hpr := List.mem_range'_1.mp (List.mem_filter.mp hp).1
    have hpb : 1 ≤ p ∧ p ≤ doc.length := by omega
    cases hpc : extract_page_content doc p with
    | some df =>
      exact pageEntriesBound_extract_page_content doc.length p doc hpb df hpc
    | none =>
      refine pageEntriesBound_replicate_frame doc.length p hpb _ ?_
      intro vs hvs
      simp only [List.mem_cons, List.not_mem_nil, or_false] at hvs
      rcases hvs with h3 | h3 | h3 | h3 <;>
        first
          | (right; exact congrArg Prod.snd h3)
          | (exfalso; have hf := congrArg Prod.fst h3; simp at hf)

lemma pageEntriesBound_summaryDF (ts : List DF) (total n : Nat) (hn : total ≤ n) :
    PageEntriesBound n (summaryDF ts total) := by
  unfold summaryDF
  by_cases h0 : total = 0
  · rw [if_pos h0]
    intro vs hvs q hq
    simp at hvs
  · rw [if_neg h0]
    intro vs hvs q hq
    simp only [List.mem_cons, List.not_mem_nil, or_false] at hvs
    rcases hvs with h3 | h3 | h3 | h3 | h3 | h3 <;>
      first
        | (have hb : vs = (List.range' 1 total).map Val.nat := congrArg Prod.snd h3
           rw [hb] at hq
           obtain ⟨m, hm, hqm⟩ := List.mem_map.mp hq
           have hqq := Val.nat.inj hqm
           have := List.mem_range'_1.mp hm
           omega)
        | (exfalso; have hf := congrArg Prod.fst h3; simp at hf)

lemma pageEntriesBound_consolidated (doc : Document) :
    ∀ t ∈ consolidate_tables (reconcile doc) doc.length,
      PageEntriesBound doc.length t := by
  intro t ht
  unfold consolidate_tables at ht
  by_cases hr : reconcile doc = []
  · rw [if_pos hr] at ht; simp at ht
  · rw [if_neg hr] at ht
    rcases List.mem_cons.mp ht with rfl | h2
    · exact pageEntriesBound_summaryDF (reconcile doc) doc.length doc.length le_rfl
    · exact pageEntriesBound_reconcile doc t h2

lemma col_mk_head (name : String) (vs : List Val)
    (rest : List (String × List Val)) :
    (DF.mk ((name, vs) :: rest)).col name = vs := by
  unfold DF.col
  rw [List.find?_cons_of_pos _ (by simp)]

lemma pageContentRows_ne_nil (pg : PdfPage)
    (hc : pg.text ≠ "" ∨ pg.words ≠ [] ∨ pg.images ≠ []) :
    pageContentRows pg ≠ [] := by
  unfold pageContentRows
  rcases hc with h | h | h
  · rw [if_pos h]; simp
  · rw [if_pos h]; simp
  · rw [if_pos h]; simp

lemma extract_page_content_page_mem (doc : Document) (p : Nat) (df : DF)
    (h : extract_page_content doc p = some df) : Val.nat p ∈ df.col "Page" := by
  unfold extract_page_content at h
  by_cases hle : p ≤ doc.length
  · rw [if_pos hle] at h
    cases hg : doc.get? (p - 1) with
    | none => rw [hg] at h; cases h
    | some pg =>
      rw [hg] at h
      have h1 : pageContentFrame p pg = some df := h
      unfold pageContentFrame at h1
      by_cases hc : pg.text ≠ "" ∨ pg.words ≠ [] ∨ pg.images ≠ []
      · rw [if_pos hc] at h1
        injection h1 with h2
        rw [← h2, col_mk_head]
        refine List.mem_replicate.mpr ⟨?_, rfl⟩
        simpa using pageContentRows_ne_nil pg hc
      · rw [if_neg hc] at h1; cases h1
  · rw [if_neg hle] at h; cases h

/-- The frame that step 4 of `extract` appends for a missing page. -/
def reconPlaceholder (doc : Document) (p : Nat) : DF :=
  match extract_page_content doc p with
  | some df => df
  | none => ⟨[("Page", [Val.nat p]),
              ("Content_Type", [Val.str "Empty_Page"]),
              ("Text", [Val.str ("[Page " ++ natRepr p ++
                " - No extractable content found]")]),
              ("Extraction_Status", [Val.str "No_Content"])]⟩

lemma reconcile_eq (doc : Document) :
    reconcile doc = extract_pre doc ++ (missing_pages_of doc).map
      (reconPlaceholder doc) := rfl

lemma reconPlaceholder_page_mem (doc : Document) (p : Nat) :
    Val.nat p ∈ (reconPlaceholder doc p).col "Page" := by
  unfold reconPlaceholder
  cases hpc : extract_page_content doc p with
  | some df => exact extract_page_content_page_mem doc p df hpc
  | none =>
    rw [col_mk_head]
    simp

/-- Claim C1: for every document, after the reconciliation step of
`PDFExtractor.extract`, the numeric page values appearing in the `Page`
field across all returned frames are exactly `{1, ..., total_pages}`.
(String values forwarded from a table that carries its own `Page` column
are not page numbers and are not counted; see C2 for that corner.) -/
theorem C1_page_coverage (doc : Document) (p : Nat) :
    Val.nat p ∈ pageVals (extract doc).tables ↔ 1 ≤ p ∧ p ≤ doc.length := by
  have htab : (extract doc).tables =
    consolidate_tables (reconcile doc) doc.length := rfl
  rw [htab]
  constructor
  · intro h
    obtain ⟨t, ht, hcol⟩ := mem_pageVals_elim _ _ h
    exact pageBound_of_entries doc.length t
      (pageEntriesBound_consolidated doc t ht) p hcol
  · intro hp
    have step : Val.nat p ∈ pageVals (reconcile doc) := by
      by_cases hmem : Val.nat p ∈ pageVals (extract_pre doc)
      · rw [reconcile_eq, pageVals_append]
        exact List.mem_append.mpr (Or.inl hmem)
      · have hmiss : p ∈ missing_pages_of doc := by
          unfold missing_pages_of
          refine List.mem_filter.mpr ⟨?_, ?_⟩
          · exact List.mem_range'_1.mpr ⟨hp.1, by omega⟩
          · simpa using hmem
        have hframe : reconPlaceholder doc p ∈
            (missing_pages_of doc).map (reconPlaceholder doc) :=
          List.mem_map.mpr ⟨p, hmiss, rfl⟩
        rw [reconcile_eq, pageVals_append]
        refine List.mem_append.mpr (Or.inr ?_)
        exact mem_pageVals_intro _ _ hframe _ (reconPlaceholder_page_mem doc p)
    have hne : reconcile doc ≠ [] := by
      intro hcon
      rw [hcon] at step
      simp [pageVals] at step
    unfold consolidate_tables
    rw [if_neg hne]
    obtain ⟨t, ht, hcol⟩ := mem_pageVals_elim _ _ step
    exact mem_pageVals_intro _ t (by simp [ht]) _ hcol

/-! ### Claim C2: the completeness score -/

def Val.isNat : Val → Bool
  | Val.nat _ => true
  | _ => false

/-- A one-page document whose single table carries its own `Page` header;
the metadata pass never overwrites an existing `Page` column, so the cell
value `"x"` survives into the final `Page` field. -/
def docC2 : Document :=
  [{ text := "This page carries well over fifty characters of extractable text.",
     words := [], tables := [[[some "Page", some "A"], [some "x", some "y"]]],
     images := [], annots := [], ocrText := "" }]

/-- Claim C2 fails on the code: the score divides the number of distinct
`Page`-field values (not distinct page numbers) by `total_pages`, so a
table carrying its own `Page` column drives the post-reconciliation score
to 200 on this one-page document. -/
theorem C2_completeness_counterexample :
    (extract docC2).total_pages = 1 ∧
    completeness_score (extract docC2) ≠ 100 := by
  refine ⟨by decide, ?_⟩
  have h1 : (extract docC2).extracted_pages = 2 := by decide
  have h2 : (extract docC2).total_pages = 1 := by decide
  unfold completeness_score
  rw [h1, h2]
  norm_num

lemma dedupFirstAux_spec [DecidableEq α] :
    ∀ (l seen : List α), (dedupFirstAux l seen).Nodup ∧
      ∀ x, x ∈ dedupFirstAux l seen ↔ x ∈ l ∧ x ∉ seen := by
  intro l
  induction l with
  | nil => intro seen; simp [dedupFirstAux]
  | cons a rest ih =>
    intro seen
    rw [dedupFirstAux]
    by_cases ha : a ∈ seen
    · rw [if_pos ha]
      obtain ⟨hnd, hmem⟩ := ih seen
      refine ⟨hnd, ?_⟩
      intro x
      rw [hmem x]
      constructor
      · intro hx; exact ⟨by simp [hx.1], hx.2⟩
      · intro hx
        rcases List.mem_cons.mp hx.1 with rfl | h2
        · exact absurd ha hx.2
        · exact ⟨h2, hx.2⟩
    · rw [if_neg ha]
      obtain ⟨hnd, hmem⟩ := ih (a :: seen)
      constructor
      · refine List.nodup_cons.mpr ⟨?_, hnd⟩
        intro hcon
        exact ((hmem a).mp hcon).2 (by simp)
      · intro x
        constructor
        · intro hx
          rcases List.mem_cons.mp hx with rfl | h2
          · exact ⟨by simp, ha⟩
          · obtain ⟨h3, h4⟩ := (hmem x).mp h2
            exact ⟨by simp [h3], fun hc => h4 (by simp [hc])⟩
        · intro ⟨hx1, hx2⟩
          rcases List.mem_cons.mp hx1 with rfl | h2
          · exact List.mem_cons_self _ _
          · by_cases hxa : x = a
            · rw [hxa]; exact List.mem_cons_self _ _
            · refine List.mem_cons_of_mem _ ((hmem x).mpr ⟨h2, ?_⟩)
              intro hc
              rcases List.mem_cons.mp hc with h3 | h3
              · exact hxa h3
              · exact hx2 h3

lemma dedupFirst_nodup [DecidableEq α] (l : List α) : (dedupFirst l).Nodup :=
  (dedupFirstAux_spec l []).1

lemma mem_dedupFirst [DecidableEq α] (l : List α) (x : α) :
    x ∈ dedupFirst l ↔ x ∈ l := by
  rw [dedupFirst]
  rw [(dedupFirstAux_spec l []).2 x]
  simp

lemma val_nat_injective : Function.Injective Val.nat := fun _ _ h => Val.nat.inj h

/-- Claim C2 amended: the score is 100 when `total_pages = 0`, and
recomputes to 100 for `total_pages ≥ 1` provided every value in the final
`Page` fields is a genuine page number (in particular whenever no
extracted table carries its own `Page` column). -/
theorem C2_completeness_amended (doc : Document) :
    (doc.length = 0 → completeness_score (extract doc) = 100) ∧
    (1 ≤ doc.length →
      (∀ v ∈ pageVals (extract doc).tables, v.isNat = true) →
      completeness_score (extract doc) = 100) := by
  have htot : (extract doc).total_pages = doc.length := rfl
  constructor
  · intro h0
    unfold completeness_score
    rw [htot, h0]
    norm_num
  · intro hn hnat
    have hext : (extract doc).extracted_pages =
        (dedupFirst (pageVals (extract doc).tables)).length := rfl
    have hset : ∀ x, x ∈ dedupFirst (pageVals (extract doc).tables) ↔
        x ∈ (List.range' 1 doc.length).map Val.nat := by
      intro x
      rw [mem_dedupFirst]
      constructor
      · intro hx
        have := hnat x hx
        cases x with
        | nat q =>
          refine List.mem_map.mpr ⟨q, ?_, rfl⟩
          have := (C1_page_coverage doc q).mp hx
          exact List.mem_range'_1.mpr ⟨this.1, by omega⟩
        | str s => simp [Val.isNat] at this
        | null => simp [Val.isNat] at this
      · intro hx
        obtain ⟨q, hq, rfl⟩ := List.mem_map.mp hx
        have := List.mem_range'_1.mp hq
        exact (C1_page_coverage doc q).mpr ⟨this.1, by omega⟩
    have hcard : (dedupFirst (pageVals (extract doc).tables)).length = doc.length := by
      have hnd1 := dedupFirst_nodup (pageVals (extract doc).tables)
      have hnd2 : ((List.range' 1 doc.length).map Val.nat).Nodup :=
        (List.nodup_range' 1 doc.length).map val_nat_injective
      have hfs : (dedupFirst (pageVals (extract doc).tables)).toFinset =
          ((List.range' 1 doc.length).map Val.nat).toFinset := by
        ext x
        rw [List.mem_toFinset, List.mem_toFinset]
        exact hset x
      have hc1 := List.toFinset_card_of_nodup hnd1
      have hc2 := List.toFinset_card_of_nodup hnd2
      rw [hfs, hc2] at hc1
      simp at hc1
      omega
    unfold completeness_score
    rw [htot, hext, hcard]
    rw [if_pos (by omega)]
    have hz : (doc.length : ℚ) ≠ 0 := Nat.cast_ne_zero.mpr (by omega)
    rw [div_self hz, one_mul]

/-- A plain one-page document with long text and no tables. -/
def docW : Document :=
  [{ text := "This page carries well over fifty characters of extractable text.",
     words := [], tables := [], images := [], annots := [], ocrText := "" }]

/-- Witness for the amended C2 at a simple one-page document. -/
theorem C2_completeness_amended_witness :
    1 ≤ docW.length ∧ completeness_score (extract docW) = 100 :=
  ⟨by decide, (C2_completeness_amended docW).2 (by decide) (by decide)⟩

/-! ### Claim C8: the empty-page scenario -/

def countTag (l : List DF) (tag : String) : Nat :=
  (l.map (fun t => (t.col "Content_Type").count (Val.str tag))).sum

def countTextVal (l : List DF) (txt : String) : Nat :=
  (l.map (fun t => (t.col "Text").count (Val.str txt))).sum

/-- A 3-page document whose page 2 yields no tables, no text, no words and
no images. -/
def doc3 : Document :=
  [{ text := "This page carries well over fifty characters of extractable text.",
     words := [], tables := [], images := [], annots := [], ocrText := "" },
   { text := "", words := [], tables := [], images := [], annots := [],
     ocrText := "" },
   { text := "Page three content", words := [], tables := [], images := [],
     annots := [], ocrText := "" }]

/-- Claim C8 fails on the code: no Empty_Page placeholder is ever
produced for this document — page 2 is already covered upstream. -/
theorem C8_empty_page_counterexample :
    doc3.length = 3 ∧
    doc3.get? 1 = some { text := "", words := [], tables := [],
                         images := [], annots := [], ocrText := "" } ∧
    countTag (extract doc3).tables "Empty_Page" = 0 := by
  refine ⟨by decide, by decide, by decide⟩

/-- Claim C8 amended: for this document page 2 is instead covered by one
`[No extractable content]` placeholder from the text-table stage's own
completion pass and one `No_Text_Content` marker from the comprehensive
stage; the reconciliation step of `extract` finds nothing missing, and the
completeness score is 100. -/
theorem C8_empty_page_amended :
    countTag (extract doc3).tables "Empty_Page" = 0 ∧
    countTag (extract doc3).tables "No_Text_Content" = 1 ∧
    countTextVal (extract doc3).tables "[No extractable content]" = 1 ∧
    missing_pages_of doc3 = [] ∧
    completeness_score (extract doc3) = 100 := by
  refine ⟨by decide, by decide, by decide, by decide, ?_⟩
  have h1 : (extract doc3).extracted_pages = 3 := by decide
  have h2 : (extract doc3).total_pages = 3 := by decide
  unfold completeness_score
  rw [h1, h2]
  norm_num

/-! ### Claim C9: the consolidator -/

def natPagesOfDF (t : DF) : List Nat :=
  (t.col "Page").filterMap (fun v =>
    match v with
    | Val.nat p => some p
    | _ => none)

/-- "Followed by the original segments in page order": successive frames
carry non-decreasing page numbers. -/
def inPageOrder (l : List DF) : Prop :=
  l.Chain' (fun a b => ∀ p ∈ natPagesOfDF a, ∀ q ∈ natPagesOfDF b, p ≤ q)

def tPage2 : DF :=
  ⟨[("Page", [Val.nat 2]), ("Content_Type", [Val.str "Text_Line"]),
    ("Text", [Val.str "b"])]⟩

def tPage1 : DF :=
  ⟨[("Page", [Val.nat 1]), ("Content_Type", [Val.str "Text_Line"]),
    ("Text", [Val.str "a"])]⟩

/-- Claim C9 fails on the code: the consolidator keeps the original
segment order and does not impose page order — feeding the page-2 table
before the page-1 table leaves them in that order after the summary. -/
theorem C9_consolidator_counterexample :
    (consolidate_tables [tPage2, tPage1] 2).drop 1 = [tPage2, tPage1] ∧
    ¬ inPageOrder ((consolidate_tables [tPage2, tPage1] 2).drop 1) := by
  refine ⟨by decide, ?_⟩
  intro h
  rw [show (consolidate_tables [tPage2, tPage1] 2).drop 1 = [tPage2, tPage1] from
    by decide] at h
  unfold inPageOrder at h
  obtain ⟨hab, -⟩ := List.chain'_cons.mp h
  have := hab 2 (by decide) 1 (by decide)
  omega

lemma col_mk_cons (name n1 : String) (v1 : List Val)
    (rest : List (String × List Val)) (h : n1 ≠ name) :
    (DF.mk ((n1, v1) :: rest)).col name = (DF.mk rest).col name := by
  unfold DF.col
  rw [List.find?_cons_of_neg _ (by simp [h])]

/-- Claim C9 amended: for every non-empty table list and `total_pages ≥ 1`
the consolidator prepends exactly one summary frame — one `Page_Summary`
row per page in `{1, ..., total_pages}`, carrying that page's item count
and the joined list of its distinct content types — and then the original
segments follow unchanged, in their original input order (the code does
not sort by page). -/
theorem C9_consolidator_amended (ts : List DF) (total : Nat)
    (hts : ts ≠ []) (htot : 1 ≤ total) :
    consolidate_tables ts total = summaryDF ts total :: ts ∧
    (summaryDF ts total).nrows = total ∧
    (summaryDF ts total).col "Page" = (List.range' 1 total).map Val.nat ∧
    (summaryDF ts total).col "Content_Type" =
      (List.range' 1 total).map (fun _ => Val.str "Page_Summary") ∧
    (summaryDF ts total).col "Total_Items" =
      (List.range' 1 total).map (fun p => Val.nat (pageItemCount ts p)) ∧
    (summaryDF ts total).col "Content_Types" =
      (List.range' 1 total).map (fun p => Val.str
        (if pageTablesOf ts p ≠ [] then pageTypesJoin ts p else "None")) := by
  have hs : summaryDF ts total = DF.mk
      [("Page", (List.range' 1 total).map Val.nat),
       ("Content_Type", (List.range' 1 total).map (fun _ => Val.str "Page_Summary")),
       ("Text", (List.range' 1 total).map (fun p => Val.str
         (if pageTablesOf ts p ≠ [] then
           "Page " ++ natRepr p ++ ": " ++ natRepr (pageItemCount ts p) ++
             " total items, Content types: " ++ pageTypesJoin ts p
          else "Page " ++ natRepr p ++ ": No content extracted"))),
       ("Total_Items", (List.range' 1 total).map (fun p => Val.nat (pageItemCount ts p))),
       ("Content_Types", (List.range' 1 total).map (fun p => Val.str
         (if pageTablesOf ts p ≠ [] then pageTypesJoin ts p else "None"))),
       ("Extraction_Method", (List.range' 1 total).map
         (fun _ => Val.str "consolidated_summary"))] := by
    unfold summaryDF
    rw [if_neg (by omega)]
  refine ⟨?_, ?_, ?_, ?_, ?_, ?_⟩
  · unfold consolidate_tables
    rw [if_neg hts]
  · rw [hs]
    unfold DF.nrows
    simp
  · rw [hs, col_mk_head]
  · rw [hs, col_mk_cons _ _ _ _ (by decide), col_mk_head]
  · rw [hs, col_mk_cons _ _ _ _ (by decide), col_mk_cons _ _ _ _ (by decide),
      col_mk_cons _ _ _ _ (by decide), col_mk_head]
  · rw [hs, col_mk_cons _ _ _ _ (by decide), col_mk_cons _ _ _ _ (by decide),
      col_mk_cons _ _ _ _ (by decide), col_mk_cons _ _ _ _ (by decide), col_mk_head]

/-- Witness for the amended C9 at a one-table, one-page input. -/
theorem C9_consolidator_amended_witness :
    consolidate_tables [tPage1] 1 = summaryDF [tPage1] 1 :: [tPage1] ∧
    (summaryDF [tPage1] 1).col "Page" = [Val.nat 1] := by
  have h := C9_consolidator_amended [tPage1] 1 (by decide) (by decide)
  refine ⟨h.1, ?_⟩
  rw [h.2.2.1]
  decide

/-! ### The structure classifier (src/pdf_to_excel_app.py)

The Python regexes of `organize_syllabus_structure` are embedded as
explicit backtracking matchers over `List Char`.  `\s`, IGNORECASE and
the character predicates are modelled over ASCII; `.` excludes the
newline and `$` is plain end of string — the classifier's content lines
are produced by splitting page text on newlines, so they carry none. -/

structure Row where
  page : String
  content : String
  lineNumber : Nat
deriving DecidableEq

structure SNode where
  page : String
  lineNumber : Nat
  unit : String
  topic : String
  subtopic : String
  content : String
  type : String
  level : Nat
deriving DecidableEq

/-- Case-insensitive literal match of `p` at the front of `s`, returning
the rest of `s`. -/
def ciPre : List Char → List Char → Option (List Char)
  | [], s => some s
  | _ :: _, [] => none
  | p :: ps, c :: cs => if p.toLower == c.toLower then ciPre ps cs else none

def noNl (l : List Char) : Bool := l.all (fun c => !(c == '\n'))

/-- `\s*(.+)$`: the greedy star gives one character back when it would
swallow the whole rest, and `(.+)` admits no newline. -/
def spaceTail (r : List Char) : Option (List Char) :=
  if r.isEmpty then none
  else
    let w := (r.takeWhile isWs).length
    let g := r.drop (min w (r.length - 1))
    if noNl g then some g else none

/-- `\s+(.+)$`: at least one whitespace must survive the give-back. -/
def spacePlusTail (r : List Char) : Option (List Char) :=
  if r.isEmpty then none
  else
    let w := (r.takeWhile isWs).length
    let j := min w (r.length - 1)
    if 1 ≤ j then
      if noNl (r.drop j) then some (r.drop j) else none
    else none

/-- `[cs]?\s*(.+)$`: try consuming the optional character first, fall
back to leaving it for `(.+)`. -/
def optSpaceTail (cs : List Char) (r : List Char) : Option (List Char) :=
  match r with
  | [] => none
  | c :: rest =>
    if cs.contains c then
      match spaceTail rest with
      | some g => some g
      | none => spaceTail r
    else spaceTail r

/-- Greedy `cls+` run of length `k` down to 1, backtracking until the
continuation `tail` accepts the remainder. -/
def runThenTailAux (s : List Char) (tail : List Char → Option (List Char)) :
    Nat → Option (List Char × List Char)
  | 0 => none
  | k + 1 =>
    match tail (s.drop (k + 1)) with
    | some g => some (s.take (k + 1), g)
    | none => runThenTailAux s tail k

def runThenTail (cls : Char → Bool) (tail : List Char → Option (List Char))
    (s : List Char) : Option (List Char × List Char) :=
  runThenTailAux s tail ((s.takeWhile cls).length)

def isIVX (c : Char) : Bool :=
  c.toLower == 'i' || c.toLower == 'v' || c.toLower == 'x'

/-- `^Word\s+(\d+)[cs]?\s*(.+)$` (IGNORECASE). -/
def wordNumTail (word : String) (cs : List Char) (s : List Char) :
    Option (List Char × List Char) :=
  match ciPre word.data s with
  | none => none
  | some r =>
    let w := (r.takeWhile isWs).length
    if w = 0 then none
    else runThenTail Char.isDigit (optSpaceTail cs) (r.drop w)

/-- `^(\d+)\.?\s*(.+)$`. -/
def matchU1 (s : List Char) : Option (List Char × List Char) :=
  runThenTail Char.isDigit (optSpaceTail ['.']) s

/-- `^Unit\s+(\d+)[:\.]?\s*(.+)$` (IGNORECASE). -/
def matchU2 (s : List Char) : Option (List Char × List Char) :=
  wordNumTail "Unit" [':', '.'] s

/-- `^([IVX]+)\.?\s*(.+)$` (IGNORECASE). -/
def matchU3 (s : List Char) : Option (List Char × List Char) :=
  runThenTail isIVX (optSpaceTail ['.']) s

/-- `^Chapter\s+(\d+)[:\.]?\s*(.+)$` (IGNORECASE). -/
def matchU4 (s : List Char) : Option (List Char × List Char) :=
  wordNumTail "Chapter" [':', '.'] s

/-- `^PAPER[-\s]?(\d+)[:\.]?\s*(.+)$` (IGNORECASE). -/
def matchU5 (s : List Char) : Option (List Char × List Char) :=
  match ciPre "PAPER".data s with
  | none => none
  | some r =>
    match r with
    | [] => none
    | c :: rest =>
      if c == '-' || isWs c then
        match runThenTail Char.isDigit (optSpaceTail [':', '.']) rest with
        | some g => some g
        | none => runThenTail Char.isDigit (optSpaceTail [':', '.']) r
      else runThenTail Char.isDigit (optSpaceTail [':', '.']) r

/-- `^Subject:\s*(.+)$` (IGNORECASE). -/
def matchU6 (s : List Char) : Option (List Char) :=
  match ciPre "Subject:".data s with
  | none => none
  | some r => spaceTail r

/-- `^Code\s+No\.\s*:\s*(\d+)\s*(.+)$` (IGNORECASE). -/
def matchU7 (s : List Char) : Option (List Char × List Char) :=
  match ciPre "Code".data s with
  | none => none
  | some r =>
    let w := (r.takeWhile isWs).length
    if w = 0 then none
    else
      match ciPre "No.".data (r.drop w) with
      | none => none
      | some r2 =>
        match r2.drop ((r2.takeWhile isWs).length) with
        | ':' :: r4 =>
          runThenTail Char.isDigit spaceTail
            (r4.drop ((r4.takeWhile isWs).length))
        | _ => none

def stdU (g : List Char × List Char) : String :=
  String.mk ("Unit ".data ++ g.1 ++ ": ".data ++ pyStrip g.2)

/-- The unit-header detection loop: patterns tried in source order, each
with its format (`Subject:` and `Code` get dedicated formats). -/
def unitResult (s : List Char) : Option String :=
  ((matchU1 s).map stdU) <|> ((matchU2 s).map stdU) <|>
  ((matchU3 s).map stdU) <|> ((matchU4 s).map stdU) <|>
  ((matchU5 s).map stdU) <|>
  ((matchU6 s).map (fun g1 => String.mk ("Subject: ".data ++ pyStrip g1))) <|>
  ((matchU7 s).map (fun g =>
    String.mk ("Code ".data ++ g.1 ++ ": ".data ++ pyStrip g.2)))

/-- `^(•|\*|\-)\s*(.+)$` — the bullet alternatives of the first topic
pattern. -/
def altBullet (s : List Char) : Option (List Char × List Char) :=
  match s with
  | c :: rest =>
    if c == '•' || c == '*' || c == '-' then
      (spaceTail rest).map (fun g => ([c], g))
    else none
  | [] => none

/-- `^([a-z]\)|•|\*|\-)\s*(.+)$` (IGNORECASE). -/
def matchT1 (s : List Char) : Option (List Char × List Char) :=
  match s with
  | a :: ')' :: rest =>
    if a.isAlpha then
      match spaceTail rest with
      | some g => some ([a, ')'], g)
      | none => altBullet s
    else altBullet s
  | _ => altBullet s

/-- `^(\d+\.\d+)\s*(.+)$`. -/
def matchT2 (s : List Char) : Option (List Char × List Char) :=
  let ds1 := s.takeWhile Char.isDigit
  if ds1.isEmpty then none
  else
    match s.drop ds1.length with
    | '.' :: r =>
      match runThenTail Char.isDigit spaceTail r with
      | some (g, t) => some (ds1 ++ '.' :: g, t)
      | none => none
    | _ => none

/-- `^\((\d+)\)\s*(.+)$` (also the third subtopic pattern). -/
def matchT3 (s : List Char) : Option (List Char × List Char) :=
  match s with
  | '(' :: r =>
    let ds := r.takeWhile Char.isDigit
    if ds.isEmpty then none
    else
      match r.drop ds.length with
      | ')' :: r2 => (spaceTail r2).map (fun g => (ds, g))
      | _ => none
  | _ => none

/-- `^([A-Z])\.\s*(.+)$` (IGNORECASE). -/
def matchT4 (s : List Char) : Option (List Char × List Char) :=
  match s with
  | a :: '.' :: r =>
    if a.isAlpha then (spaceTail r).map (fun g => ([a], g)) else none
  | _ => none

/-- `^Word\s+(.+)$` (IGNORECASE), for The/This/It. -/
def matchWordTail (word : String) (s : List Char) : Option (List Char) :=
  match ciPre word.data s with
  | none => none
  | some r => spacePlusTail r

def stdT (g : List Char × List Char) : String :=
  String.mk (g.1 ++ ". ".data ++ pyStrip g.2)

def objT (g1 : List Char) : String :=
  String.mk ("Objective: ".data ++ pyStrip g1)

/-- The topic-header detection loop. -/
def topicResult (s : List Char) : Option String :=
  ((matchT1 s).map stdT) <|> ((matchT2 s).map stdT) <|>
  ((matchT3 s).map stdT) <|> ((matchT4 s).map stdT) <|>
  ((matchWordTail "The" s).map objT) <|>
  ((matchWordTail "This" s).map objT) <|>
  ((matchWordTail "It" s).map objT)

/-- `^(\s{2,})(.+)$`. -/
def matchS1 (s : List Char) : Option (List Char × List Char) :=
  if s.isEmpty then none
  else
    let w := (s.takeWhile isWs).length
    let j := min w (s.length - 1)
    if 2 ≤ j then
      if noNl (s.drop j) then some (s.take j, s.drop j) else none
    else none

/-- `^(\d+\.\d+\.\d+)\s*(.+)$`. -/
def matchS2 (s : List Char) : Option (List Char × List Char) :=
  let ds1 := s.takeWhile Char.isDigit
  if ds1.isEmpty then none
  else
    match s.drop ds1.length with
    | '.' :: r =>
      let ds2 := r.takeWhile Char.isDigit
      if ds2.isEmpty then none
      else
        match r.drop ds2.length with
        | '.' :: r2 =>
          match runThenTail Char.isDigit spaceTail r2 with
          | some (g, t) => some (ds1 ++ '.' :: (ds2 ++ '.' :: g), t)
          | none => none
        | _ => none
    | _ => none

/-- The subtopic detection loop (its third pattern equals `matchT3`). -/
def subResult (s : List Char) : Option String :=
  ((matchS1 s).map stdT) <|> ((matchS2 s).map stdT) <|>
  ((matchT3 s).map stdT)

/-- One iteration of the classification loop: produces the node and the
updated `(current_unit, current_topic, current_subtopic)` state. -/
def classifyLine (u t st : String) (row : Row) :
    SNode × String × String × String :=
  let content := row.content
  match unitResult content.data with
  | some newU =>
    (⟨row.page, row.lineNumber, newU, "", "", content, "Unit_Header", 1⟩,
     newU, "", "")
  | none =>
    match topicResult content.data with
    | some newT =>
      (⟨row.page, row.lineNumber, u, newT, "", content, "Topic_Header", 2⟩,
       u, newT, "")
    | none =>
      match subResult content.data with
      | some newS =>
        (⟨row.page, row.lineNumber, u, t, newS, content, "Subtopic_Header", 3⟩,
         u, t, newS)
      | none =>
        if u ≠ "" then
          (⟨row.page, row.lineNumber, u, t, st, content, "Content",
            if st ≠ "" then 4 else if t ≠ "" then 3 else 2⟩, u, t, st)
        else
          (⟨row.page, row.lineNumber, "", "", "", content, "General_Content", 1⟩,
           u, t, st)

def organize_go : String → String → String → List Row → List SNode
  | _, _, _, [] => []
  | u, t, st, r :: rs =>
    let res := classifyLine u t st r
    res.1 :: organize_go res.2.1 res.2.2.1 res.2.2.2 rs

/-- Flush the pending word buffer as one reconstructed line (appended
only when the joined line strips to something non-empty). -/
def flushLine (page : String) (ws : List (List Char)) (acc : List Row) :
    List Row :=
  if ws.isEmpty then acc
  else
    let line := pyJoinSp ws
    if (pyStrip line).isEmpty then acc
    else acc ++ [⟨page, String.mk line, acc.length + 1⟩]

/-- The word-reconstruction loop: state is `(current_page,
current_line_words, reconstructed_data)`; a page change flushes under the
old page, a new-sentence marker flushes under the (possibly updated)
page. -/
def recon_go : String → List (List Char) → List Row → List Row → List Row
  | cp, ws, acc, [] => flushLine cp ws acc
  | cp, ws, acc, r :: rs =>
    let content := pyStrip r.content.data
    let acc1 := if r.page ≠ cp then flushLine cp ws acc else acc
    let ws1 := if r.page ≠ cp then ([] : List (List Char)) else ws
    let cp1 := r.page
    let isNew : Bool :=
      !content.isEmpty &&
        ((match content with
          | [] => false
          | c :: _ => c.isUpper || c.isDigit) ||
         decide (String.mk content ∈
           (["PAPER", "UNIT", "Subject:", "Code", "The", "This", "It"] :
             List String)) ||
         (match content with
          | '(' :: _ => true
          | '•' :: _ => true
          | _ => false))
    let acc2 := if isNew && !ws1.isEmpty then flushLine cp1 ws1 acc1 else acc1
    let ws2 := if isNew && !ws1.isEmpty then ([] : List (List Char)) else ws1
    recon_go cp1 (ws2 ++ [content]) acc2 rs

/-- `reconstruct_words_to_sentences`: returns the frame unchanged when
the mean content length exceeds 10 (`sum > 10 * count`). -/
def reconstruct_words_to_sentences (rows : List Row) : List Row :=
  if rows.isEmpty then rows
  else if 10 * rows.length < (rows.map (fun r => r.content.length)).sum then rows
  else recon_go "" [] [] rows

/-- pandas `Series.ffill`: replaces NaN (`none`) cells by the nearest
preceding non-NaN value; string cells are never NaN. -/
def pandasFfill : Option String → List (Option String) →
    List (Option String)
  | _, [] => []
  | last, none :: rest => last :: pandasFfill last rest
  | _, some v :: rest => some v :: pandasFfill (some v) rest

/-- Write the three filled ancestry columns back into the frame (a `none`
cell cannot occur here, so the fallback is immaterial). -/
def setAncestry : List SNode → List (Option String) → List (Option String) →
    List (Option String) → List SNode
  | n :: ns, u :: us, t :: ts, s :: ss =>
    { n with unit := u.getD n.unit, topic := t.getD n.topic,
             subtopic := s.getD n.subtopic } :: setAncestry ns us ts ss
  | ns, _, _, _ => ns

def organize_syllabus_structure (rows : List Row) : List SNode :=
  if rows.isEmpty then []
  else
    let rows2 := reconstruct_words_to_sentences rows
    let nodes := organize_go "" "" "" rows2
    setAncestry nodes
      (pandasFfill none (nodes.map (fun n => some n.unit)))
      (pandasFfill none (nodes.map (fun n => some n.topic)))
      (pandasFfill none (nodes.map (fun n => some n.subtopic)))

/-! ### Claims C3 and C6: the classifier and its forward-fill pass -/

lemma pandasFfill_map_some (f : α → String) (l : List α) :
    ∀ last, pandasFfill last (l.map (fun a => some (f a))) =
      l.map (fun a => some (f a)) := by
  induction l with
  | nil => intro last; rfl
  | cons a rest ih => intro last; simp [pandasFfill, ih]

lemma setAncestry_self (ns : List SNode) :
    setAncestry ns (ns.map (fun n => some n.unit))
      (ns.map (fun n => some n.topic))
      (ns.map (fun n => some n.subtopic)) = ns := by
  induction ns with
  | nil => rfl
  | cons n rest ih => simp [setAncestry, ih]

/-- The stored ancestry cells are strings — never NaN — so the pandas
`ffill` pass changes nothing. -/
lemma organize_ffill_noop (rows : List Row) :
    organize_syllabus_structure rows =
      if rows.isEmpty then []
      else organize_go "" "" "" (reconstruct_words_to_sentences rows) := by
  unfold organize_syllabus_structure
  by_cases h : rows.isEmpty
  · rw [if_pos h, if_pos h]
  · rw [if_neg h, if_neg h]
    show setAncestry (organize_go "" "" "" (reconstruct_words_to_sentences rows))
      (pandasFfill none ((organize_go "" "" ""
        (reconstruct_words_to_sentences rows)).map (fun n => some n.unit)))
      (pandasFfill none ((organize_go "" "" ""
        (reconstruct_words_to_sentences rows)).map (fun n => some n.topic)))
      (pandasFfill none ((organize_go "" "" ""
        (reconstruct_words_to_sentences rows)).map (fun n => some n.subtopic))) = _
    rw [pandasFfill_map_some, pandasFfill_map_some, pandasFfill_map_some,
      setAncestry_self]

/-- Three lines on one page: a unit header, a topic header, and a second
unit header (whose node stores a blank Topic). -/
def rows3 : List Row :=
  [⟨"Page 1", "1. Introduction", 1⟩, ⟨"Page 1", "a) Overview", 2⟩,
   ⟨"Page 1", "2. Next Unit", 3⟩]

/-- Claim C3 fails on the code: the "forward-fill" pass is a no-op on
every input (the ancestry cells are `''` strings, never NaN, and pandas
`ffill` only fills NaN), so the third node's blank Topic is not replaced
by the nearest preceding non-blank value `"a). Overview"`. -/
theorem C3_forward_fill_noop :
    (∀ rows : List Row, organize_syllabus_structure rows =
      if rows.isEmpty then []
      else organize_go "" "" "" (reconstruct_words_to_sentences rows)) ∧
    (organize_syllabus_structure rows3).map (fun n => n.topic) =
      ["", "a). Overview", ""] :=
  ⟨organize_ffill_noop, by decide⟩

/-- The line sequence of claim C6, fed to the classifier on one page. -/
def rowsC6 : List Row :=
  [⟨"Page 1", "1. Introduction", 1⟩, ⟨"Page 1", "a) Overview", 2⟩,
   ⟨"Page 1", "Some detail text", 3⟩]

/-- Claim C6 fails on the code: no output node carries the topic
`"Overview"` — the topic header's stored topic keeps its marker,
`"a). Overview"`. -/
theorem C6_classifier_counterexample :
    (organize_syllabus_structure rowsC6).length = 3 ∧
    ∀ n ∈ organize_syllabus_structure rowsC6, ¬ n.topic = "Overview" := by
  decide

/-- Claim C6 amended: the three lines classify to a Unit_Header with unit
"Unit 1: Introduction", a Topic_Header with that unit and topic
"a). Overview" (the marker survives in the topic text), and a Content
node inheriting both. -/
theorem C6_classifier_amended :
    (organize_syllabus_structure rowsC6).map
      (fun n => (n.type, n.unit, n.topic, n.level)) =
    [("Unit_Header", "Unit 1: Introduction", "", 1),
     ("Topic_Header", "Unit 1: Introduction", "a). Overview", 2),
     ("Content", "Unit 1: Introduction", "a). Overview", 3)] := by
  decide

end PdfToExcel
